import Mathlib

/-!
Verification development for the finance text-analysis pipeline
(`app/utils/text_utils.py`, `app/utils/cache.py`, `app/utils/content_filter.py`,
`app/services/nlp_service.py`).

Texts are modelled as `List Char` (Python strings index by code point, which
matches `List Char` indices).  Python floats are modelled as `ℚ`: every numeric
constant the code manipulates is a small decimal literal and no claim depends
on binary rounding.  Stateful code (the TTL cache) is modelled by explicit
state passing with the wall clock `time.time()` as an explicit `now : ℚ`
argument.
-/

namespace Finance

/-! ## Character classes (Python `str` predicates restricted to the
Basic Latin + Arabic repertoire this repository manipulates) -/

/-- Python whitespace (`str.split()` / `str.strip()` / regex class) restricted
to the ASCII whitespace characters. -/
def isPySpace (c : Char) : Bool :=
  c = ' ' || c = '\t' || c = '\n' || c = '\x0d' || c = '\x0c' || c = '\x0b'

/-- Python regex class (backslash)d — Unicode decimal digits: ASCII digits plus
the Eastern Arabic-Indic and Extended Arabic-Indic digit blocks. -/
def isPyDigit (c : Char) : Bool :=
  c.isDigit || (0x0660 ≤ c.toNat && c.toNat ≤ 0x0669) || (0x06F0 ≤ c.toNat && c.toNat ≤ 0x06F9)

/-- Python regex class (backslash)w — word characters: ASCII alphanumerics and
underscore plus the Arabic letters and Arabic-block digits used by this
repository (Unicode word characters of the Arabic block). -/
def isPyWordChar (c : Char) : Bool :=
  c.isAlphanum || c = '_' ||
  (0x0620 ≤ c.toNat && c.toNat ≤ 0x064A) ||
  (0x0660 ≤ c.toNat && c.toNat ≤ 0x0669) ||
  (0x066E ≤ c.toNat && c.toNat ≤ 0x06D3) ||
  (0x06F0 ≤ c.toNat && c.toNat ≤ 0x06FF)

/-- Python `str.isalpha` restricted to the Basic Latin and Arabic letter
ranges relevant here (Arabic letters are the Lo-category code points of the
Arabic block; Arabic-Indic digits and Arabic punctuation are not alphabetic). -/
def isPyAlpha (c : Char) : Bool :=
  c.isAlpha ||
  (0x0620 ≤ c.toNat && c.toNat ≤ 0x064A) ||
  (0x066E ≤ c.toNat && c.toNat ≤ 0x066F) ||
  (0x0671 ≤ c.toNat && c.toNat ≤ 0x06D3) ||
  c.toNat = 0x06D5 ||
  (0x06EE ≤ c.toNat && c.toNat ≤ 0x06EF) ||
  (0x06FA ≤ c.toNat && c.toNat ≤ 0x06FC) ||
  c.toNat = 0x06FF

/-- Python `str.lower`, which is the identity on Arabic letters and lowercases
ASCII letters. -/
def pyLower (s : List Char) : List Char :=
  s.map Char.toLower

/-- Python `str.strip()`: remove leading and trailing whitespace. -/
def pyStrip (s : List Char) : List Char :=
  ((s.dropWhile isPySpace).reverse.dropWhile isPySpace).reverse

/-! ## `normalize_arabic_text` (`app/utils/text_utils.py` lines 11-38)

The source applies, in order: a fold of Eastern and Extended Arabic-Indic
digits to ASCII digits, a fold of the Arabic decimal/thousands separators,
a fold of the letter variants, and removal of diacritics.  Each Python
`str.replace` of a single character is a per-character map (or a filter for
the diacritic removal), so each pass is a `List.map` / `List.filter`. -/

/-- Fold of the Arabic-Indic (٠…٩) and Extended Arabic-Indic (۰…۹) digits to
ASCII digits: the loop over `zip(arabic_indic + extended_arabic, english * 2)`. -/
def foldDigit (c : Char) : Char :=
  match c with
  | '٠' => '0' | '١' => '1' | '٢' => '2' | '٣' => '3' | '٤' => '4'
  | '٥' => '5' | '٦' => '6' | '٧' => '7' | '٨' => '8' | '٩' => '9'
  | '۰' => '0' | '۱' => '1' | '۲' => '2' | '۳' => '3' | '۴' => '4'
  | '۵' => '5' | '۶' => '6' | '۷' => '7' | '۸' => '8' | '۹' => '9'
  | d => d

/-- Fold of the Arabic decimal separator ٫ to a dot and of the Arabic comma ،
to an ASCII comma. -/
def foldSep (c : Char) : Char :=
  match c with
  | '٫' => '.'
  | '،' => ','
  | d => d

/-- Canonicalisation of the Arabic letter variants (أ إ آ → ا, ة → ه, ى → ي). -/
def foldLetter (c : Char) : Char :=
  match c with
  | 'أ' => 'ا' | 'إ' => 'ا' | 'آ' => 'ا'
  | 'ة' => 'ه'
  | 'ى' => 'ي'
  | d => d

/-- The diacritic marks removed by the final pass (the string literal
`'ًٌٍَُِّْ'` in the source). -/
def isDiacritic (c : Char) : Bool :=
  c = 'ً' || c = 'ٌ' || c = 'ٍ' || c = 'َ' || c = 'ُ' || c = 'ِ' || c = 'ّ' || c = 'ْ'

/-- `normalize_arabic_text`: the four replacement passes applied in source
order (digits, separators, letter variants, then diacritic removal).  The
early `return ""` for empty input coincides with the passes on `[]`. -/
def normalize_arabic_text (s : List Char) : List Char :=
  (((s.map foldDigit).map foldSep).map foldLetter).filter (fun c => !(isDiacritic c))

/-- The per-character action of the three mapping passes combined. -/
def normChar (c : Char) : Char :=
  foldLetter (foldSep (foldDigit c))

theorem normalize_eq_filter_map (s : List Char) :
    normalize_arabic_text s = (s.map normChar).filter (fun c => !(isDiacritic c)) := by
  simp only [normalize_arabic_text, List.map_map]
  rfl

theorem foldDigit_cases (c : Char) :
    foldDigit c = c ∨ foldDigit c ∈ ['0','1','2','3','4','5','6','7','8','9'] := by
  unfold foldDigit
  split <;> simp

theorem foldSep_cases (c : Char) :
    foldSep c = c ∨ foldSep c ∈ ['.', ','] := by
  unfold foldSep
  split <;> simp

theorem foldLetter_cases (c : Char) :
    foldLetter c = c ∨ foldLetter c ∈ ['ا', 'ه', 'ي'] := by
  unfold foldLetter
  split <;> simp

/-- The ASCII digits produced by `foldDigit` are fixed points of every later
pass and of the combined map. -/
theorem digit_outputs_fixed :
    ∀ d ∈ ['0','1','2','3','4','5','6','7','8','9'],
      foldSep d = d ∧ foldLetter d = d ∧ normChar d = d := by
  decide

/-- The separators produced by `foldSep` are fixed points of the letter pass
and of the combined map. -/
theorem sep_outputs_fixed :
    ∀ d ∈ ['.', ','], foldLetter d = d ∧ normChar d = d := by
  decide

/-- The canonical letters produced by `foldLetter` are fixed points of the
combined map. -/
theorem letter_outputs_fixed :
    ∀ d ∈ ['ا', 'ه', 'ي'], normChar d = d := by
  decide

theorem normChar_idem (c : Char) : normChar (normChar c) = normChar c := by
  rcases foldDigit_cases c with h | h
  · rcases foldSep_cases (foldDigit c) with h2 | h2
    · rcases foldLetter_cases (foldSep (foldDigit c)) with h3 | h3
      · have hc : normChar c = c := by
          simp only [normChar, h] at h2 h3 ⊢
          simp only [h2] at h3 ⊢
          exact h3
        simp only [hc]
      · exact letter_outputs_fixed _ h3
    · have hL := (sep_outputs_fixed _ h2).1
      have hN := (sep_outputs_fixed _ h2).2
      show normChar (foldLetter (foldSep (foldDigit c))) = foldLetter (foldSep (foldDigit c))
      rw [hL]
      exact hN
  · have h1 := (digit_outputs_fixed _ h).1
    have h2 := (digit_outputs_fixed _ h).2.1
    have h3 := (digit_outputs_fixed _ h).2.2
    show normChar (foldLetter (foldSep (foldDigit c))) = foldLetter (foldSep (foldDigit c))
    rw [h1, h2]
    exact h3

/-- Claim C3: the normalizer is idempotent — `normalize(normalize(s)) ==
normalize(s)` for every string `s`; it is moreover total by construction
(a Lean function defined for every input list of characters). -/
theorem c3_normalize_idempotent (s : List Char) :
    normalize_arabic_text (normalize_arabic_text s) = normalize_arabic_text s := by
  rw [normalize_eq_filter_map s, normalize_eq_filter_map]
  have hmap : ((s.map normChar).filter (fun c => !(isDiacritic c))).map normChar
      = (s.map normChar).filter (fun c => !(isDiacritic c)) := by
    have h1 : ∀ d ∈ (s.map normChar).filter (fun c => !(isDiacritic c)),
        normChar d = d := by
      intro d hd
      have hd2 : d ∈ s.map normChar := List.mem_of_mem_filter hd
      rcases List.mem_map.mp hd2 with ⟨c, _, rfl⟩
      exact normChar_idem c
    calc ((s.map normChar).filter (fun c => !(isDiacritic c))).map normChar
        = ((s.map normChar).filter (fun c => !(isDiacritic c))).map id :=
          List.map_congr_left h1
      _ = (s.map normChar).filter (fun c => !(isDiacritic c)) := List.map_id _
  rw [hmap, List.filter_filter]
  simp

/-! ## Substring containment (the Python `in` operator on strings) -/

/-- Python `needle in hay` for strings: `needle` occurs as a contiguous
substring of `hay`. -/
def containsSub (needle : List Char) : List Char → Bool
  | [] => needle.isEmpty
  | c :: t => needle.isPrefixOf (c :: t) || containsSub needle t

/-- Python truthiness of an optional string: `None` and the empty string are
falsy. -/
def truthyStr (o : Option (List Char)) : Bool :=
  match o with
  | none => false
  | some s => !s.isEmpty

/-! ## `TransactionExtractor._calculate_confidence`
(`app/services/nlp_service.py` lines 215-237) -/

/-- The action-verb list of `_calculate_confidence`. -/
def confidence_action_verbs : List (List Char) :=
  ["دفعت".toList, "اشتريت".toList, "جبت".toList, "استلمت".toList, "قبضت".toList]

/-- The check `any(verb in text.lower() for verb in action_verbs)`. -/
def hasActionVerb (text : List Char) : Bool :=
  confidence_action_verbs.any (fun v => containsSub v (pyLower text))

/-- `_calculate_confidence`: base 0.5, +0.3 for an amount, +0.1 each for a
(truthy) place, a (truthy) item and an action verb, capped at 1.0. -/
def calculate_confidence (text : List Char) (amount : Option ℚ)
    (place item : Option (List Char)) : ℚ :=
  let s0 : ℚ := 0.5
  let s1 := if amount.isSome then s0 + 0.3 else s0
  let s2 := if truthyStr place then s1 + 0.1 else s1
  let s3 := if truthyStr item then s2 + 0.1 else s2
  let s4 := if hasActionVerb text then s3 + 0.1 else s3
  min s4 1

/-- Claim C2: for every segment, optional amount, optional merchant and
optional item, the computed confidence equals
min(1.0, 0.5 + 0.3·[amount found] + 0.1·[merchant found] + 0.1·[item found]
+ 0.1·[action verb present]), and in particular lies in [0.5, 1.0].
("Found" for merchant/item means present and non-empty, exactly the Python
truthiness test the code performs; the extractor only ever supplies `None` or
a non-empty name.) -/
theorem c2_confidence_formula (text : List Char) (amount : Option ℚ)
    (place item : Option (List Char)) :
    calculate_confidence text amount place item
      = min 1 (0.5 + (if amount.isSome then (0.3:ℚ) else 0)
          + (if truthyStr place then (0.1:ℚ) else 0)
          + (if truthyStr item then (0.1:ℚ) else 0)
          + (if hasActionVerb text then (0.1:ℚ) else 0))
    ∧ (0.5:ℚ) ≤ calculate_confidence text amount place item
    ∧ calculate_confidence text amount place item ≤ 1 := by
  unfold calculate_confidence
  rcases hA : amount.isSome <;> rcases hP : truthyStr place <;>
    rcases hI : truthyStr item <;> rcases hV : hasActionVerb text <;>
      refine ⟨?_, ?_, ?_⟩ <;> simp [min_def] <;> norm_num

/-! ## `detect_language` (`app/utils/text_utils.py` lines 195-214) -/

/-- Membership in the Arabic Unicode block, the test
`'؀' <= char <= 'ۿ'`. -/
def isArabicBlock (c : Char) : Bool :=
  0x0600 ≤ c.toNat && c.toNat ≤ 0x06FF

/-- `detect_language`: empty or letterless input is "unknown"; otherwise the
ratio of Arabic-block characters to alphabetic characters decides between
"ar" (> 0.3), "en" (< 0.1) and "mixed". -/
def detect_language (text : List Char) : List Char :=
  if text.isEmpty then "unknown".toList
  else
    let arabic_chars := (text.filter isArabicBlock).length
    let total_chars := (text.filter isPyAlpha).length
    if total_chars = 0 then "unknown".toList
    else
      let r : ℚ := (arabic_chars : ℚ) / (total_chars : ℚ)
      if r > 0.3 then "ar".toList
      else if r < 0.1 then "en".toList
      else "mixed".toList

/-- Claim C10 (implicit): language detection always returns one of "ar", "en",
"mixed", "unknown"; it returns "unknown" exactly when the input has no
alphabetic character (in particular on the empty string); and otherwise the
result is decided by whether the ratio of Arabic-block characters to
alphabetic characters is above 0.3, below 0.1, or in between. -/
theorem c10_detect_language (text : List Char) :
    (detect_language text = "ar".toList ∨ detect_language text = "en".toList
      ∨ detect_language text = "mixed".toList ∨ detect_language text = "unknown".toList)
    ∧ (detect_language text = "unknown".toList ↔ (text.filter isPyAlpha).length = 0)
    ∧ (0 < (text.filter isPyAlpha).length →
        detect_language text =
          (if (((text.filter isArabicBlock).length : ℚ) / ((text.filter isPyAlpha).length : ℚ)) > 0.3
            then "ar".toList
           else if (((text.filter isArabicBlock).length : ℚ) / ((text.filter isPyAlpha).length : ℚ)) < 0.1
            then "en".toList
           else "mixed".toList)) := by
  unfold detect_language
  by_cases hE : text.isEmpty
  · have hnil : text = [] := List.isEmpty_iff.mp hE
    subst hnil
    refine ⟨by simp, by simp, by simp⟩
  · simp only [hE, if_false]
    by_cases hT : (text.filter isPyAlpha).length = 0
    · simp only [hT, if_true]
      refine ⟨by tauto, by tauto, ?_⟩
      intro h
      omega
    · simp only [hT, if_false]
      by_cases h3 :
          (((text.filter isArabicBlock).length : ℚ) / ((text.filter isPyAlpha).length : ℚ)) > 0.3
      · simp only [if_pos h3]
        exact ⟨Or.inl rfl, ⟨fun h => absurd h (by decide), fun h => h.elim⟩, fun _ => rfl⟩
      · simp only [if_neg h3]
        by_cases h1 :
            (((text.filter isArabicBlock).length : ℚ) / ((text.filter isPyAlpha).length : ℚ)) < 0.1
        · simp only [if_pos h1]
          exact ⟨Or.inr (Or.inl rfl), ⟨fun h => absurd h (by decide), fun h => h.elim⟩,
            fun _ => rfl⟩
        · simp only [if_neg h1]
          exact ⟨Or.inr (Or.inr (Or.inl rfl)), ⟨fun h => absurd h (by decide), fun h => h.elim⟩,
            fun _ => rfl⟩

/-- Witness for C10 at the concrete all-Latin text "abc": the alphabetic
count is positive and the result is given by the threshold comparison. -/
theorem c10_detect_language_witness :
    0 < ("abc".toList.filter isPyAlpha).length
    ∧ detect_language "abc".toList =
        (if ((("abc".toList.filter isArabicBlock).length : ℚ)
              / (("abc".toList.filter isPyAlpha).length : ℚ)) > 0.3
          then "ar".toList
         else if ((("abc".toList.filter isArabicBlock).length : ℚ)
              / (("abc".toList.filter isPyAlpha).length : ℚ)) < 0.1
          then "en".toList
         else "mixed".toList) :=
  ⟨by decide, (c10_detect_language "abc".toList).2.2 (by decide)⟩

/-! ## `cache_key_for_text` (`app/utils/cache.py` lines 131-134)

The key is `"text_analysis:" + sha256(f"{text}:{language}").hexdigest()`.
SHA-256 is modelled as an abstract function parameter: the claims only concern
which inputs the hash is applied to (and SHA-256 is injective on all inputs
occurring in practice). -/

/-- The pre-hash content string ` f"{text}:{language}" `. -/
def cache_key_content (text language : List Char) : List Char :=
  text ++ ':' :: language

/-- `cache_key_for_text`, with the hash function abstracted. -/
def cache_key_for_text (hash : List Char → List Char)
    (text language : List Char) : List Char :=
  "text_analysis:".toList ++ hash (cache_key_content text language)

/-! ### The `cached_text_analysis` wrapper (`app/utils/cache.py` lines 137-159)

`analyze_text` is an *instance method*, decorated at class-definition time, so
`cached_text_analysis` wraps the unbound function and the wrapper's signature
is `wrapper(text, *args, **kwargs)`.  A bound call
`service.analyze_text(input_text, language)` (`app/api/endpoints.py` line 79;
line 201 passes only the text) binds the wrapper's `text` parameter to the
service object itself, puts the real arguments into `*args`, and leaves
`**kwargs` empty.  Line 143 then computes
`cache_key_for_text(text, kwargs.get('language', 'ar'))`, so the hashed
content is `str(self)` followed by `:ar` — the analyzed text and the language
argument never enter the key. -/

/-- A call as the wrapper `wrapper(text, *args, **kwargs)` receives it: the
first positional argument, the remaining positional arguments, and the
keyword arguments (an association list). -/
structure PyCall where
  first : List Char
  args : List (List Char)
  kwargs : List (List Char × List Char)
  deriving DecidableEq

/-- `kwargs.get(k, d)`. -/
def kwargsGet (kw : List (List Char × List Char)) (k d : List Char) : List Char :=
  match kw.find? (fun p => decide (p.1 = k)) with
  | some p => p.2
  | none => d

/-- The content string the wrapper hashes for a call (`cache.py` line 143
composed with line 133). -/
def wrapper_key_content (c : PyCall) : List Char :=
  cache_key_content c.first (kwargsGet c.kwargs "language".toList "ar".toList)

/-- The cache key the wrapper computes for a call (`cache.py` line 143). -/
def wrapper_cache_key (hash : List Char → List Char) (c : PyCall) : List Char :=
  cache_key_for_text hash c.first (kwargsGet c.kwargs "language".toList "ar".toList)

/-- The bound call `service.analyze_text(text, language)` as the wrapper
receives it: `first` is `str(self)` (the f-string rendering of the service
object), the analyzed text and the language travel in `*args`, and `kwargs`
is empty — both call sites pass the language positionally or not at all. -/
def bound_analyze_call (selfRepr text language : List Char) : PyCall :=
  ⟨selfRepr, [text, language], []⟩

/-- The memoization key of the whole-analysis entry point for a bound call
with the given input text and language. -/
def entry_point_cache_key (hash : List Char → List Char)
    (selfRepr text language : List Char) : List Char :=
  wrapper_cache_key hash (bound_analyze_call selfRepr text language)

/-- The content string actually hashed by the entry point's memoization key
for a bound call. -/
def entry_point_key_content (selfRepr text language : List Char) : List Char :=
  wrapper_key_content (bound_analyze_call selfRepr text language)

/-- Counterexample to claim C4: the entry point's memoization key is NOT a
hash of the normalized input text and the language code.  Because the
decorator wraps an instance method, the wrapper's `text` parameter is bound
to the service object and `kwargs.get('language', 'ar')` yields `"ar"`, so
the hashed content is `str(self)` followed by `:ar`.  Two inputs that do not
even normalize equal are hashed to the same content string — hence the same
key for every hash function, witnessed here by the identity — and that
content differs from the normalized-text content the claim describes. -/
theorem c4_counterexample :
    normalize_arabic_text "دفعت 50 جنيه".toList
      ≠ normalize_arabic_text "قبضت المرتب".toList
    ∧ entry_point_key_content "<NLPService object at 0x7f>".toList
        "دفعت 50 جنيه".toList "ar".toList
      = entry_point_key_content "<NLPService object at 0x7f>".toList
        "قبضت المرتب".toList "ar".toList
    ∧ entry_point_cache_key id "<NLPService object at 0x7f>".toList
        "دفعت 50 جنيه".toList "ar".toList
      = entry_point_cache_key id "<NLPService object at 0x7f>".toList
        "قبضت المرتب".toList "ar".toList
    ∧ entry_point_key_content "<NLPService object at 0x7f>".toList
        "دفعت 50 جنيه".toList "ar".toList
      ≠ cache_key_content
          (normalize_arabic_text "دفعت 50 جنيه".toList) "ar".toList := by
  decide

/-! ## `SimpleCache` (`app/utils/cache.py` lines 14-121)

The Python dict is modelled as an insertion-ordered association list with
unique keys; `time.time()` is passed explicitly as `now`. -/

/-- A cache entry: `{'value', 'created_at', 'last_accessed', 'expires_at'}`. -/
structure CacheEntry (α : Type) where
  value : α
  created_at : ℚ
  last_accessed : ℚ
  expires_at : ℚ
  deriving DecidableEq

/-- The cache object: store, `max_size` and `default_ttl`. -/
structure SimpleCache (α : Type) where
  cache : List (String × CacheEntry α)
  max_size : Nat
  default_ttl : ℚ
  deriving DecidableEq

/-- `_cleanup_expired`: drop every entry with `current_time > expires_at`. -/
def cleanup_expired (now : ℚ) (c : SimpleCache α) : SimpleCache α :=
  { c with cache := c.cache.filter (fun kv => !(decide (now > kv.2.expires_at))) }

/-- Ordering of entries by creation time (the `key=lambda k: created_at` of
`_evict_oldest`; Python's `sorted` is stable, as is `insertionSort` with a
non-strict comparison). -/
def createdLE (a b : String × CacheEntry α) : Prop :=
  a.2.created_at ≤ b.2.created_at

instance : DecidableRel (@createdLE α) :=
  fun a b => inferInstanceAs (Decidable (a.2.created_at ≤ b.2.created_at))

instance : IsTotal (String × CacheEntry α) createdLE :=
  ⟨fun a b => le_total a.2.created_at b.2.created_at⟩

instance : IsTrans (String × CacheEntry α) createdLE :=
  ⟨fun _ _ _ hab hbc => le_trans hab hbc⟩

/-- The number of entries `_evict_oldest` removes: `max(1, len(cache) // 10)`. -/
def entriesToRemove (c : SimpleCache α) : Nat :=
  max 1 (c.cache.length / 10)

/-- The keys of the oldest `entriesToRemove` entries by creation time. -/
def oldestKeys (c : SimpleCache α) : List String :=
  ((c.cache.insertionSort createdLE).take (entriesToRemove c)).map Prod.fst

/-- `_evict_oldest`: when the store is at or above `max_size`, delete the
oldest `max(1, size // 10)` entries by creation time. -/
def evict_oldest (c : SimpleCache α) : SimpleCache α :=
  if c.max_size ≤ c.cache.length then
    { c with cache := c.cache.filter (fun kv => decide (kv.1 ∉ oldestKeys c)) }
  else c

/-- `self.cache[key] = entry` on an insertion-ordered dict: overwrite in place
if the key is present, else append. -/
def setAssoc (k : String) (e : CacheEntry α) :
    List (String × CacheEntry α) → List (String × CacheEntry α)
  | [] => [(k, e)]
  | kv :: rest => if kv.1 = k then (k, e) :: rest else kv :: setAssoc k e rest

/-- `SimpleCache.set`: resolve the TTL, sweep expired entries, evict if at
capacity, then insert the new entry. -/
def cache_set (c : SimpleCache α) (now : ℚ) (key : String) (value : α)
    (ttl : Option ℚ) : SimpleCache α :=
  let t := ttl.getD c.default_ttl
  let c2 := evict_oldest (cleanup_expired now c)
  { c2 with cache := setAssoc key ⟨value, now, now, now + t⟩ c2.cache }

/-- `SimpleCache.get`: absent → `None`; expired → delete and `None`;
live → refresh `last_accessed` and return the value. -/
def cache_get (c : SimpleCache α) (now : ℚ) (key : String) :
    Option α × SimpleCache α :=
  match c.cache.find? (fun kv => kv.1 == key) with
  | none => (none, c)
  | some kv =>
    if now > kv.2.expires_at then
      (none, { c with cache := c.cache.filter (fun e => !(e.1 == key)) })
    else
      let touch := fun (e : String × CacheEntry α) =>
        if e.1 == key then (e.1, { e.2 with last_accessed := now }) else e
      (some kv.2.value, { c with cache := c.cache.map touch })

/-- `SimpleCache.delete`. -/
def cache_delete (c : SimpleCache α) (key : String) : Bool × SimpleCache α :=
  if c.cache.any (fun kv => kv.1 == key) then
    (true, { c with cache := c.cache.filter (fun kv => !(kv.1 == key)) })
  else (false, c)

/-- `SimpleCache.clear`. -/
def cache_clear (c : SimpleCache α) : SimpleCache α :=
  { c with cache := [] }

theorem setAssoc_length_le (k : String) (e : CacheEntry α)
    (l : List (String × CacheEntry α)) :
    (setAssoc k e l).length ≤ l.length + 1 := by
  induction l with
  | nil => simp [setAssoc]
  | cons kv rest ih =>
    by_cases h : kv.1 = k
    · simp [setAssoc, h]
    · simp [setAssoc, h]
      omega

theorem evict_oldest_length_lt (c : SimpleCache α) (hmax : 1 ≤ c.max_size)
    (hge : c.max_size ≤ c.cache.length) :
    (evict_oldest c).cache.length < c.cache.length := by
  unfold evict_oldest
  simp only [hge, if_pos]
  have hpos : 0 < c.cache.length := lt_of_lt_of_le hmax hge
  -- the head of the sorted list does not survive: its key is evicted
  have hperm := List.perm_insertionSort createdLE c.cache
  have hslen : (c.cache.insertionSort createdLE).length = c.cache.length :=
    hperm.length_eq
  have hsne : c.cache.insertionSort createdLE ≠ [] := by
    intro h
    rw [h] at hslen
    simp at hslen
    omega
  obtain ⟨s0, rest, hs⟩ := List.exists_cons_of_ne_nil hsne
  have hs0mem : s0 ∈ c.cache := hperm.mem_iff.mp (by rw [hs]; exact List.mem_cons_self _ _)
  have hs0key : s0.1 ∈ oldestKeys c := by
    unfold oldestKeys
    have h1 : 1 ≤ entriesToRemove c := le_max_left _ _
    obtain ⟨m, hm⟩ := Nat.exists_eq_add_of_le h1
    rw [hs, hm, Nat.add_comm 1 m]
    simp [List.take_succ_cons]
  have hfail : ¬ (fun kv => decide (kv.1 ∉ oldestKeys c)) s0 = true := by
    simp [hs0key]
  rw [List.length_filter_lt_length_iff_exists]
  exact ⟨s0, hs0mem, hfail⟩

theorem cleanup_length_le (now : ℚ) (c : SimpleCache α) :
    (cleanup_expired now c).cache.length ≤ c.cache.length :=
  List.length_filter_le _ _

theorem cache_set_length_le (c : SimpleCache α) (now : ℚ) (key : String)
    (value : α) (ttl : Option ℚ) (hmax : 1 ≤ c.max_size)
    (hlen : c.cache.length ≤ c.max_size) :
    (cache_set c now key value ttl).cache.length ≤ c.max_size := by
  have hm1 : (cleanup_expired now c).max_size = c.max_size := rfl
  have h1 : (cleanup_expired now c).cache.length ≤ c.cache.length :=
    cleanup_length_le now c
  have h2 : (evict_oldest (cleanup_expired now c)).cache.length + 1 ≤ c.max_size := by
    by_cases hcap :
        (cleanup_expired now c).max_size ≤ (cleanup_expired now c).cache.length
    · have hlt := evict_oldest_length_lt (cleanup_expired now c)
        (by rw [hm1]; exact hmax) hcap
      omega
    · have heq : evict_oldest (cleanup_expired now c) = cleanup_expired now c := by
        unfold evict_oldest
        simp [hcap]
      rw [heq]
      rw [hm1] at hcap
      omega
  have h3 := setAssoc_length_le key
    ⟨value, now, now, now + ttl.getD c.default_ttl⟩
    (evict_oldest (cleanup_expired now c)).cache
  exact le_trans h3 h2

theorem cache_get_length_le (c : SimpleCache α) (now : ℚ) (key : String) :
    ((cache_get c now key).2).cache.length ≤ c.cache.length := by
  unfold cache_get
  cases hf : c.cache.find? (fun kv => kv.1 == key) with
  | none => simp
  | some kv =>
    by_cases hexp : now > kv.2.expires_at
    · simp only [hexp, if_pos]
      exact List.length_filter_le _ _
    · simp only [hexp, if_neg, not_false_iff]
      simp

/-- The capacity eviction removes exactly `max(1, size // 10)` entries and
every evicted entry is at least as old as every survivor (for a store with
unique keys, at or above capacity). -/
theorem evict_oldest_exact (c : SimpleCache α)
    (hnd : (c.cache.map Prod.fst).Nodup) (hge : c.max_size ≤ c.cache.length) :
    (evict_oldest c).cache.length = c.cache.length - entriesToRemove c
    ∧ ∀ e ∈ c.cache, e.1 ∈ oldestKeys c →
        ∀ s ∈ (evict_oldest c).cache, e.2.created_at ≤ s.2.created_at := by
  have hperm := List.perm_insertionSort createdLE c.cache
  set n := entriesToRemove c with hn
  set sorted := c.cache.insertionSort createdLE with hsorted
  have hndS : (sorted.map Prod.fst).Nodup :=
    ((hperm.map Prod.fst).nodup_iff).mpr hnd
  have htds : sorted = sorted.take n ++ sorted.drop n :=
    (List.take_append_drop n sorted).symm
  have hkeys : oldestKeys c = (sorted.take n).map Prod.fst := rfl
  have hdisj : ∀ a, a ∈ (sorted.take n).map Prod.fst →
      a ∈ (sorted.drop n).map Prod.fst → False := by
    have hnd2 : ((sorted.take n).map Prod.fst ++ (sorted.drop n).map Prod.fst).Nodup := by
      rw [← List.map_append, ← htds]
      exact hndS
    exact fun a ha hb => (List.nodup_append.mp hnd2).2.2 ha hb
  have hfilterTake :
      (sorted.take n).filter (fun kv => decide (kv.1 ∉ oldestKeys c)) = [] := by
    apply List.filter_eq_nil_iff.mpr
    intro kv hkv
    simp only [decide_eq_true_eq, not_not]
    rw [hkeys]
    exact List.mem_map_of_mem _ hkv
  have hfilterDrop :
      (sorted.drop n).filter (fun kv => decide (kv.1 ∉ oldestKeys c)) = sorted.drop n := by
    apply List.filter_eq_self.mpr
    intro kv hkv
    simp only [decide_eq_true_eq]
    rw [hkeys]
    intro hmem
    exact hdisj _ hmem (List.mem_map_of_mem _ hkv)
  have hEcache : (evict_oldest c).cache
      = c.cache.filter (fun kv => decide (kv.1 ∉ oldestKeys c)) := by
    unfold evict_oldest
    simp [hge]
  have hpermFilter : (evict_oldest c).cache.length
      = (sorted.filter (fun kv => decide (kv.1 ∉ oldestKeys c))).length := by
    rw [hEcache]
    exact (hperm.filter _).length_eq.symm
  constructor
  · rw [hpermFilter]
    conv_lhs => rw [htds]
    rw [List.filter_append, hfilterTake, hfilterDrop]
    simp only [List.nil_append, List.length_drop]
    rw [hperm.length_eq]
  · intro e he hekey s hs
    have heS : e ∈ sorted := hperm.mem_iff.mpr he
    obtain ⟨e2, he2mem, he2key⟩ : ∃ e2 ∈ sorted.take n, e2.1 = e.1 := by
      rw [hkeys] at hekey
      obtain ⟨e2, h1, h2⟩ := List.mem_map.mp hekey
      exact ⟨e2, h1, h2⟩
    have he2S : e2 ∈ sorted := by
      rw [htds]
      exact List.mem_append_left _ he2mem
    have hee : e2 = e := List.inj_on_of_nodup_map hndS he2S heS he2key
    have hsS : s ∈ sorted := by
      rw [hEcache] at hs
      exact hperm.mem_iff.mpr (List.mem_of_mem_filter hs)
    have hskey : s.1 ∉ oldestKeys c := by
      rw [hEcache] at hs
      have := List.of_mem_filter hs
      simpa using this
    have hsDrop : s ∈ sorted.drop n := by
      have hsS2 : s ∈ sorted.take n ++ sorted.drop n := by
        rw [← htds]
        exact hsS
      rcases List.mem_append.mp hsS2 with h | h
      · exact absurd (by rw [hkeys]; exact List.mem_map_of_mem _ h) hskey
      · exact h
    have hsort2 : List.Pairwise createdLE (sorted.take n ++ sorted.drop n) := by
      rw [← htds]
      exact List.sorted_insertionSort createdLE c.cache
    have hrel := (List.pairwise_append.mp hsort2).2.2 e2 he2mem s hsDrop
    rw [hee] at hrel
    exact hrel

/-- Claim C5: for every cache with `max_size ≥ 1`, the bound
`#entries ≤ max_size` is preserved by every operation; `set` sweeps expired
entries, evicts when at or above capacity and never leaves the store above
`max_size`; and (for a well-formed store, keys unique) the capacity eviction
removes exactly `max(1, size // 10)` entries and every evicted entry is at
least as old (by creation time) as every surviving entry. -/
theorem c5_cache_capacity_invariant (α : Type) (c : SimpleCache α) (now : ℚ)
    (key : String) (value : α) (ttl : Option ℚ)
    (hmax : 1 ≤ c.max_size) (hlen : c.cache.length ≤ c.max_size) :
    (cache_set c now key value ttl).cache.length ≤ c.max_size
    ∧ ((cache_get c now key).2).cache.length ≤ c.max_size
    ∧ ((cache_delete c key).2).cache.length ≤ c.max_size
    ∧ (cache_clear c).cache.length ≤ c.max_size
    ∧ ((c.cache.map Prod.fst).Nodup → c.max_size ≤ c.cache.length →
        (evict_oldest c).cache.length = c.cache.length - entriesToRemove c
        ∧ ∀ e ∈ c.cache, e.1 ∈ oldestKeys c →
            ∀ s ∈ (evict_oldest c).cache, e.2.created_at ≤ s.2.created_at) := by
  refine ⟨cache_set_length_le c now key value ttl hmax hlen,
    le_trans (cache_get_length_le c now key) hlen, ?_, by simp [cache_clear], ?_⟩
  · unfold cache_delete
    by_cases h : c.cache.any (fun kv => kv.1 == key)
    · simp only [h, if_pos]
      exact le_trans (List.length_filter_le _ _) hlen
    · simp only [h, if_neg, not_false_iff]
      exact hlen
  · intro hnd hge
    exact evict_oldest_exact c hnd hge

/-- Witness for C5 at a concrete two-entry cache of capacity 2. -/
theorem c5_cache_capacity_invariant_witness :
    (1 ≤ (2:Nat) ∧ ((("a", (⟨10, 0, 0, 100⟩ : CacheEntry Nat)) ::
        ("b", (⟨20, 1, 1, 100⟩ : CacheEntry Nat)) :: []).length ≤ 2))
    ∧ ((cache_set ⟨[("a", ⟨10, 0, 0, 100⟩), ("b", ⟨20, 1, 1, 100⟩)], 2, 50⟩
          5 "c" 30 none).cache.length ≤ 2) := by
  have h := c5_cache_capacity_invariant Nat
    ⟨[("a", ⟨10, 0, 0, 100⟩), ("b", ⟨20, 1, 1, 100⟩)], 2, 50⟩
    5 "c" 30 none (by decide) (by decide)
  exact ⟨⟨by decide, by decide⟩, h.1⟩

/-- Claim C4, amended: the memoization key of the whole-analysis entry point
is independent of both the analyzed text and the language argument.  The
decorator wraps the instance method, so the wrapper's `text` parameter is the
service object and the key hashes `str(self)` followed by `:ar`: any two
bound calls on the same service instance compute the same cache key, and a
second call — for ANY input text, normalize-equal or not — maps to the first
call's cache entry and hits it while that entry is live (the decorator
stores with TTL 3600). -/
theorem c4_amended_constant_key (hash : List Char → List Char)
    (selfRepr t1 l1 t2 l2 : List Char) :
    entry_point_cache_key hash selfRepr t1 l1
      = entry_point_cache_key hash selfRepr t2 l2
    ∧ entry_point_key_content selfRepr t1 l1 = selfRepr ++ ':' :: "ar".toList
    ∧ ∀ (α : Type) (v : α) (now now2 : ℚ), ¬ now2 > now + 3600 →
        (cache_get
          (cache_set ⟨[], 1000, 3600⟩ now
            (String.mk (entry_point_cache_key hash selfRepr t1 l1)) v
            (some 3600))
          now2 (String.mk (entry_point_cache_key hash selfRepr t2 l2))).1
        = some v := by
  refine ⟨rfl, rfl, ?_⟩
  intro α v now now2 h
  have e : entry_point_cache_key hash selfRepr t2 l2
      = entry_point_cache_key hash selfRepr t1 l1 := rfl
  rw [e]
  simp [cache_get, cache_set, cleanup_expired, evict_oldest, setAssoc, h]

/-- Witness for the amended C4 theorem: a concrete service representation,
two normalize-inequivalent input texts, a concrete cached value and concrete
times. -/
theorem c4_amended_constant_key_witness :
    ¬ (1:ℚ) > 0 + 3600
    ∧ (cache_get
        (cache_set ⟨[], 1000, 3600⟩ 0
          (String.mk (entry_point_cache_key id
            "<NLPService object at 0x7f>".toList
            "دفعت 50 جنيه".toList "ar".toList)) (7 : ℕ) (some 3600))
        1 (String.mk (entry_point_cache_key id
            "<NLPService object at 0x7f>".toList
            "قبضت المرتب".toList "ar".toList))).1 = some 7 :=
  ⟨by norm_num,
    (c4_amended_constant_key id "<NLPService object at 0x7f>".toList
      "دفعت 50 جنيه".toList "ar".toList "قبضت المرتب".toList "ar".toList).2.2
      ℕ 7 0 1 (by norm_num)⟩

/-! ## Regex-style scanning machinery

`re.finditer` is modelled by trying a hand-written matcher at every position,
left to right, and jumping over each (non-empty) match, exactly as the regex
engine scans for non-overlapping leftmost matches. -/

/-- Scan with matcher `f` (fuel-indexed so that the recursion is structural
and kernel-computable; every match consumes at least one character, so fuel
equal to the scanned length never runs out).  `f` returns a payload and the
total matched length. -/
def scanGo (f : List Char → Option (α × Nat)) : Nat → List Char → Nat → List (α × Nat)
  | 0, _, _ => []
  | _, [], _ => []
  | fuel + 1, c :: rest, i =>
    match f (c :: rest) with
    | some (a, len) => (a, i) :: scanGo f fuel (rest.drop (len - 1)) (i + len)
    | none => scanGo f fuel rest (i + 1)

/-- `re.finditer`: try the matcher at every position, left to right, jumping
over each match (non-overlapping leftmost matches). -/
def scanAux (f : List Char → Option (α × Nat)) (s : List Char) (i : Nat) :
    List (α × Nat) :=
  scanGo f s.length s i

/-- Fuel-indexed worker for Python `str.split()`. -/
def pySplitWsGo : Nat → List Char → List (List Char)
  | 0, _ => []
  | _, [] => []
  | fuel + 1, c :: rest =>
    if isPySpace c then pySplitWsGo fuel rest
    else (c :: rest.takeWhile (fun d => !(isPySpace d))) ::
         pySplitWsGo fuel (rest.dropWhile (fun d => !(isPySpace d)))

/-- Python `str.split()` with no argument: maximal runs of non-whitespace,
leading/trailing/repeated whitespace discarded. -/
def pySplitWs (s : List Char) : List (List Char) :=
  pySplitWsGo s.length s

/-! ## `extract_amounts_from_text` (`app/utils/text_utils.py` lines 41-141) -/

/-- Value of one decimal digit character (Python `float` accepts the Unicode
decimal digits; after normalization only ASCII digits occur). -/
def digitVal (c : Char) : ℚ :=
  if c.isDigit then ((c.toNat - 48 : Nat) : ℚ)
  else if 0x0660 ≤ c.toNat ∧ c.toNat ≤ 0x0669 then ((c.toNat - 0x0660 : Nat) : ℚ)
  else if 0x06F0 ≤ c.toNat ∧ c.toNat ≤ 0x06F9 then ((c.toNat - 0x06F0 : Nat) : ℚ)
  else 0

/-- Value of a run of decimal digits. -/
def digitsVal (ds : List Char) : ℚ :=
  ds.foldl (fun acc c => acc * 10 + digitVal c) 0

/-- Value of one decimal digit character as a natural number. -/
def digitNat (c : Char) : Nat :=
  if c.isDigit then c.toNat - 48
  else if 0x0660 ≤ c.toNat ∧ c.toNat ≤ 0x0669 then c.toNat - 0x0660
  else if 0x06F0 ≤ c.toNat ∧ c.toNat ≤ 0x06F9 then c.toNat - 0x06F0
  else 0

/-- Value of a run of decimal digits as a natural number. -/
def digitsValNat (ds : List Char) : Nat :=
  ds.foldl (fun acc c => acc * 10 + digitNat c) 0

/-- `float(amount_str.replace(',', ''))` for the tokens the number regex can
capture (digits, optionally one `.` or `,` separator, then digits); the
fractional part is the exact rational numerator/10^k (built with `mkRat` so
that the value is kernel-computable). -/
def parseFloatTok (tok : List Char) : ℚ :=
  let t := tok.filter (fun c => c ≠ ',')
  let ip := t.takeWhile (fun c => c ≠ '.')
  match t.drop ip.length with
  | [] => digitsVal ip
  | _ :: frac => digitsVal ip + mkRat (Int.ofNat (digitsValNat frac)) (10 ^ frac.length)

/-- Matcher for the regex `(\d+(?:[,.]?\d+)?)`: a greedy digit run, optionally
one separator followed by another digit run (greediness agrees with the
backtracking engine here, see the development commentary).  Returns the
captured token and the matched length. -/
def matchNum (s : List Char) : Option (List Char × Nat) :=
  let ds := s.takeWhile isPyDigit
  if ds.isEmpty then none
  else
    match s.drop ds.length with
    | c :: rest2 =>
      if c = ',' ∨ c = '.' then
        let ds2 := rest2.takeWhile isPyDigit
        if ds2.isEmpty then some (ds, ds.length)
        else some (ds ++ c :: ds2, ds.length + 1 + ds2.length)
      else some (ds, ds.length)
    | [] => some (ds, ds.length)

/-- Alternation of literal words: the length of the first alternative that is
a prefix of `s` (Python alternation takes the first matching branch). -/
def firstAltLen : List (List Char) → List Char → Option Nat
  | [], _ => none
  | a :: rest, s => if a.isPrefixOf s then some a.length else firstAltLen rest s

/-- The currency-word alternatives of the four `CURRENCY_PATTERNS`
(`app/config.py`), in alternation order; `دولارات?` is expanded into its two
branches in match-priority order. -/
def currency_words_1 : List (List Char) :=
  ["جنيه".toList, "جنية".toList, "جنيهات".toList]

def currency_words_2 : List (List Char) :=
  ["ريال".toList, "ريالات".toList]

def currency_words_3 : List (List Char) :=
  ["دولار".toList, "دولارات".toList, "دولارا".toList]

def currency_words_4 : List (List Char) :=
  ["pound".toList, "egp".toList, "sar".toList, "usd".toList]

/-- Matcher for one currency pattern
`(\d+(?:[,.]?\d+)?)\s*(?:word|word|…)`: number, optional whitespace, then a
currency word.  Payload is the captured number token. -/
def matchCurrency (alts : List (List Char)) (s : List Char) :
    Option (List Char × Nat) :=
  match matchNum s with
  | none => none
  | some (tok, nlen) =>
    let rest := s.drop nlen
    let sp := (rest.takeWhile isPySpace).length
    match firstAltLen alts (rest.drop sp) with
    | none => none
    | some wlen => some (tok, nlen + sp + wlen)

/-- All matches of one currency pattern, as `(value, position)` pairs with
non-positive values discarded (`if amount > 0`). -/
def currencyAmounts (alts : List (List Char)) (text_lower : List Char) :
    List (ℚ × Nat) :=
  (scanAux (matchCurrency alts) text_lower 0).filterMap
    (fun x => let v := parseFloatTok x.1; if 0 < v then some (v, x.2) else none)

/-- All matches of the standalone-number pattern `(\d+(?:[,.]?\d+)?)`. -/
def standaloneAmounts (text_lower : List Char) : List (ℚ × Nat) :=
  (scanAux matchNum text_lower 0).filterMap
    (fun x => let v := parseFloatTok x.1; if 0 < v then some (v, x.2) else none)

/-- The `number_words` dictionary of `extract_amounts_from_text`, in source
order. -/
def number_words : List (String × ℚ) :=
  [("واحد", 1), ("واحدة", 1), ("اتنين", 2), ("اثنين", 2), ("اثنان", 2), ("تنين", 2),
   ("ثلاثة", 3), ("تلاتة", 3), ("تلاته", 3), ("ثلاث", 3),
   ("اربعة", 4), ("اربع", 4), ("أربعة", 4), ("أربع", 4), ("اربعه", 4),
   ("خمسة", 5), ("خمس", 5), ("خمسه", 5),
   ("ستة", 6), ("ست", 6), ("سته", 6),
   ("سبعة", 7), ("سبع", 7), ("سبعه", 7),
   ("ثمانية", 8), ("تمانية", 8), ("ثمان", 8), ("تمان", 8), ("تمانيه", 8),
   ("تسعة", 9), ("تسع", 9), ("تسعه", 9),
   ("عشرة", 10), ("عشر", 10), ("عشره", 10),
   ("عشرين", 20), ("عشرون", 20),
   ("ثلاثين", 30), ("ثلاثون", 30), ("تلاتين", 30), ("تلاتون", 30),
   ("اربعين", 40), ("اربعون", 40), ("أربعين", 40),
   ("خمسين", 50), ("خمسون", 50),
   ("ستين", 60), ("ستون", 60),
   ("سبعين", 70), ("سبعون", 70),
   ("ثمانين", 80), ("ثمانون", 80), ("تمانين", 80), ("تمانون", 80),
   ("تسعين", 90), ("تسعون", 90),
   ("مية", 100), ("ميه", 100), ("مائة", 100), ("مئة", 100), ("مائه", 100),
   ("ميتين", 200), ("مئتين", 200), ("مائتين", 200), ("ميتان", 200),
   ("تلتمية", 300), ("ثلثمائة", 300), ("تلاتمية", 300),
   ("اربعمية", 400), ("أربعمائة", 400), ("اربعمائة", 400),
   ("خمسمية", 500), ("خمسمائة", 500), ("خمسميه", 500),
   ("ستمية", 600), ("ستمائة", 600),
   ("سبعمية", 700), ("سبعمائة", 700),
   ("تمنمية", 800), ("ثمانمائة", 800), ("تمانمية", 800),
   ("تسعمية", 900), ("تسعمائة", 900),
   ("الف", 1000), ("ألف", 1000), ("الاف", 1000), ("آلاف", 1000),
   ("الفين", 2000), ("ألفين", 2000), ("الفان", 2000), ("ألفان", 2000)]

/-- Strip a single attached preposition character
(`word.startswith(('ب','ل','ك'))` → `word[1:]`). -/
def stripPreposition (w : List Char) : List Char :=
  match w with
  | c :: rest => if c = 'ب' ∨ c = 'ل' ∨ c = 'ك' then rest else w
  | [] => w

/-- `re.sub(r'[^\w\s]', '', clean_word)`: keep only word characters and
whitespace (tokens from `split()` contain no whitespace). -/
def cleanWord (w : List Char) : List Char :=
  (stripPreposition w).filter (fun c => isPyWordChar c || isPySpace c)

/-- Dictionary lookup of a cleaned token. -/
def lookupNumberWord (w : List Char) : Option ℚ :=
  (number_words.find? (fun kv => kv.1.toList == w)).map (fun kv => kv.2)

/-- The Arabic word-number stage: walk the `split()` tokens, tracking
`current_pos` as `current_pos += len(word) + 1`, and emit a hit for every
cleaned token found in the dictionary. -/
def wordStage : List (List Char) → Nat → List (ℚ × Nat)
  | [], _ => []
  | w :: ws, pos =>
    (match lookupNumberWord (cleanWord w) with
     | some n => [(n, pos)]
     | none => []) ++ wordStage ws (pos + w.length + 1)

/-- The word-number stage applied as in the source (on the
normalized-lowercased text, positions starting at 0). -/
def word_amounts (text_lower : List Char) : List (ℚ × Nat) :=
  wordStage (pySplitWs text_lower) 0

/-- Position-bucket deduplication: keep the first candidate per
`position // 5` bucket, in position order. -/
def dedupAmounts : List (ℚ × Nat) → List Nat → List (ℚ × Nat)
  | [], _ => []
  | (a, p) :: rest, seen =>
    if p / 5 ∈ seen then dedupAmounts rest seen
    else (a, p) :: dedupAmounts rest (p / 5 :: seen)

/-- `extract_amounts_from_text`: word-number stage, the four currency
patterns, then standalone numbers; stable-sort all candidates by position
(Python `sorted` is stable) and deduplicate by 5-character bucket. -/
def extract_amounts_from_text (text : List Char) : List (ℚ × Nat) :=
  let text_lower := pyLower (normalize_arabic_text text)
  let amounts :=
    word_amounts text_lower
    ++ currencyAmounts currency_words_1 text_lower
    ++ currencyAmounts currency_words_2 text_lower
    ++ currencyAmounts currency_words_3 text_lower
    ++ currencyAmounts currency_words_4 text_lower
    ++ standaloneAmounts text_lower
  dedupAmounts (List.insertionSort (fun a b => a.2 ≤ b.2) amounts) []

/-! ## Claim C6: token positions of the word-number stage

Spec side: a tokenizer that records each token's true start offset.  Code
side: `wordStage` above, which advances `current_pos` by `len(word) + 1` per
token — correct only when tokens are separated by single whitespace
characters and the text has no leading whitespace. -/

/-- Fuel-indexed worker for the specification tokenizer. -/
def tokensGo : Nat → List Char → Nat → List ((List Char) × Nat)
  | 0, _, _ => []
  | _, [], _ => []
  | fuel + 1, c :: rest, i =>
    if isPySpace c then tokensGo fuel rest (i + 1)
    else
      (c :: rest.takeWhile (fun d => !(isPySpace d)), i) ::
        tokensGo fuel (rest.dropWhile (fun d => !(isPySpace d)))
          (i + 1 + (rest.takeWhile (fun d => !(isPySpace d))).length)

/-- Specification tokenizer: whitespace tokenization recording each token's
true start offset (offset of its first character), first character of the
input at offset `i`. -/
def tokensWithOffsets (s : List Char) (i : Nat) : List ((List Char) × Nat) :=
  tokensGo s.length s i

/-- The positions the code assigns to a token list: cumulative
`len(word) + 1` offsets starting at `pos`. -/
def zipOffsets : List (List Char) → Nat → List ((List Char) × Nat)
  | [], _ => []
  | w :: ws, pos => (w, pos) :: zipOffsets ws (pos + w.length + 1)

/-- No two adjacent whitespace characters. -/
def wellSpaced : List Char → Bool
  | [] => true
  | [_] => true
  | a :: b :: rest => !(isPySpace a && isPySpace b) && wellSpaced (b :: rest)

/-- The first character, if any, is not whitespace. -/
def noLeadingSpace : List Char → Bool
  | [] => true
  | c :: _ => !(isPySpace c)

theorem wellSpaced_tail (a : Char) (t : List Char)
    (h : wellSpaced (a :: t) = true) : wellSpaced t = true := by
  cases t with
  | nil => rfl
  | cons b r =>
    simp only [wellSpaced, Bool.and_eq_true] at h
    exact h.2

theorem wellSpaced_append_right (u t : List Char)
    (h : wellSpaced (u ++ t) = true) : wellSpaced t = true := by
  induction u with
  | nil => exact h
  | cons a u ih => exact ih (wellSpaced_tail _ _ h)

theorem wellSpaced_suffix {s t : List Char} (hsuf : t <:+ s)
    (h : wellSpaced s = true) : wellSpaced t = true := by
  obtain ⟨u, rfl⟩ := hsuf
  exact wellSpaced_append_right u t h

theorem dropWhile_head_not (p : α → Bool) :
    ∀ (l : List α) (b : α) (t : List α), l.dropWhile p = b :: t → p b = false := by
  intro l
  induction l with
  | nil =>
    intro b t h
    simp [List.dropWhile] at h
  | cons a l ih =>
    intro b t h
    rw [List.dropWhile_cons] at h
    by_cases hp : p a
    · simp only [hp, if_true] at h
      exact ih b t h
    · simp only [hp, if_false] at h
      injection h with h1 h2
      subst h1
      simpa using hp

/-- Fuel-general form: under single-whitespace separation with no leading
whitespace, the code's cumulative positions agree with the true token start
offsets (any sufficient fuels). -/
theorem tokensGo_eq_zipOffsets :
    ∀ (n : Nat) (s : List Char), s.length ≤ n →
      noLeadingSpace s = true → wellSpaced s = true →
      ∀ fuel1 fuel2, s.length ≤ fuel1 → s.length ≤ fuel2 →
      ∀ i, tokensGo fuel1 s i = zipOffsets (pySplitWsGo fuel2 s) i := by
  intro n
  induction n with
  | zero =>
    intro s hlen _ _ fuel1 fuel2 _ _ i
    have hs : s = [] := List.eq_nil_of_length_eq_zero (Nat.le_zero.mp hlen)
    subst hs
    cases fuel1 <;> cases fuel2 <;> rfl
  | succ n ih =>
    intro s hlen hlead hws fuel1 fuel2 hf1 hf2 i
    cases s with
    | nil => cases fuel1 <;> cases fuel2 <;> rfl
    | cons c rest =>
      cases fuel1 with
      | zero => simp at hf1
      | succ f1 =>
      cases fuel2 with
      | zero => simp at hf2
      | succ f2 =>
      have hc : isPySpace c = false := by
        simp only [noLeadingSpace, Bool.not_eq_true'] at hlead
        exact hlead
      simp only [tokensGo, pySplitWsGo, hc, Bool.false_eq_true, if_false]
      rw [zipOffsets]
      congr 1
      cases hd : rest.dropWhile (fun d => !(isPySpace d)) with
      | nil =>
        cases f1 <;> cases f2 <;> rfl
      | cons b d2 =>
        have hb : isPySpace b = true := by
          have := dropWhile_head_not (fun d => !(isPySpace d)) rest b d2 hd
          simpa using this
        have hsufd : (b :: d2) <:+ rest := by
          rw [← hd]
          exact List.dropWhile_suffix _
        have hsufs : (b :: d2) <:+ (c :: rest) := hsufd.trans (List.suffix_cons _ _)
        have hws2 : wellSpaced (b :: d2) = true := wellSpaced_suffix hsufs hws
        have hlead2 : noLeadingSpace d2 = true := by
          cases d2 with
          | nil => rfl
          | cons x d3 =>
            simp only [wellSpaced, Bool.and_eq_true] at hws2
            have h1 := hws2.1
            rw [hb] at h1
            simp only [noLeadingSpace]
            simpa using h1
        have hws3 : wellSpaced d2 = true := wellSpaced_tail _ _ hws2
        have hbd : (b :: d2).length ≤ rest.length := hsufd.length_le
        simp only [List.length_cons] at hbd hlen hf1 hf2
        cases f1 with
        | zero => omega
        | succ f1 =>
        cases f2 with
        | zero => omega
        | succ f2 =>
        simp only [tokensGo, pySplitWsGo, hb, if_true]
        rw [ih d2 (by omega) hlead2 hws3 f1 f2 (by omega) (by omega)]
        congr 1
        simp only [List.length_cons]
        omega

/-- Under single-whitespace separation with no leading whitespace, the code's
cumulative positions agree with the true token start offsets. -/
theorem tokensWithOffsets_eq_zipOffsets (s : List Char)
    (hlead : noLeadingSpace s = true) (hws : wellSpaced s = true) (i : Nat) :
    tokensWithOffsets s i = zipOffsets (pySplitWs s) i :=
  tokensGo_eq_zipOffsets s.length s le_rfl hlead hws s.length s.length
    le_rfl le_rfl i

/-- Every hit of the word-number stage corresponds to a token at the
cumulative position. -/
theorem wordStage_mem :
    ∀ (ws : List (List Char)) (pos : Nat) (a : ℚ) (p : Nat),
      (a, p) ∈ wordStage ws pos →
      ∃ w, (w, p) ∈ zipOffsets ws pos ∧ lookupNumberWord (cleanWord w) = some a := by
  intro ws
  induction ws with
  | nil =>
    intro pos a p h
    simp [wordStage] at h
  | cons w ws ih =>
    intro pos a p h
    rw [wordStage] at h
    rcases List.mem_append.mp h with h1 | h2
    · cases hl : lookupNumberWord (cleanWord w) with
      | none =>
        rw [hl] at h1
        simp at h1
      | some n =>
        rw [hl] at h1
        simp only [List.mem_singleton, Prod.mk.injEq] at h1
        obtain ⟨rfl, rfl⟩ := h1
        exact ⟨w, by rw [zipOffsets]; exact List.mem_cons_self _ _, hl⟩
    · obtain ⟨w2, hm, hlk⟩ := ih _ _ _ h2
      exact ⟨w2, by rw [zipOffsets]; exact List.mem_cons_of_mem _ hm, hlk⟩

/-- Claim C6, amended: each Amount emitted by the Arabic word-number stage has
a position equal to its token's start offset in the normalized, lowercased
text PROVIDED the text has no leading whitespace and no two consecutive
whitespace characters (each separator a single whitespace character).  The
code advances its position counter by `len(word) + 1` per token, so leading
or repeated whitespace makes the emitted positions undercount the true
offsets — see the counterexample. -/
theorem c6_amended_word_positions (text : List Char)
    (hlead : noLeadingSpace (pyLower (normalize_arabic_text text)) = true)
    (hws : wellSpaced (pyLower (normalize_arabic_text text)) = true) :
    ∀ a p, (a, p) ∈ word_amounts (pyLower (normalize_arabic_text text)) →
      ∃ w, (w, p) ∈ tokensWithOffsets (pyLower (normalize_arabic_text text)) 0
        ∧ lookupNumberWord (cleanWord w) = some a := by
  intro a p h
  rw [tokensWithOffsets_eq_zipOffsets _ hlead hws 0]
  exact wordStage_mem _ 0 a p h

/-- Witness for the amended C6 theorem on a single-spaced text. -/
theorem c6_amended_word_positions_witness :
    noLeadingSpace (pyLower (normalize_arabic_text "عشرين جنيه".toList)) = true
    ∧ (∃ w, (w, 0) ∈ tokensWithOffsets (pyLower (normalize_arabic_text "عشرين جنيه".toList)) 0
        ∧ lookupNumberWord (cleanWord w) = some 20) :=
  ⟨by decide, c6_amended_word_positions "عشرين جنيه".toList (by decide) (by decide) 20 0 (by decide)⟩

/-- Counterexample to claim C6 as stated: on the doubly-spaced text
"عشرين  عشرين" the word-number stage emits its second Amount at position 6,
but the token start offsets in the normalized, lowercased text are 0 and 7 —
the emitted position is not the start offset of any token. -/
theorem c6_counterexample :
    ((20 : ℚ), 6) ∈ word_amounts (pyLower (normalize_arabic_text "عشرين  عشرين".toList))
    ∧ (tokensWithOffsets (pyLower (normalize_arabic_text "عشرين  عشرين".toList)) 0).map Prod.snd
        = [0, 7]
    ∧ (6 : Nat) ∉ [0, 7] := by
  refine ⟨by decide, by decide, by decide⟩

/-! ## `split_text_into_segments` (`app/utils/text_utils.py` lines 144-192)

`re.split` with a combined alternation of six connector patterns.  Each
pattern matches at least one character; group values of the single
participating group equal the whole match, the other five groups contribute
`None` entries, which the downstream loop skips as falsy — so the split is
modelled as the flat list of pieces and matched connector substrings. -/

/-- Length of the leading whitespace run (`\s*`). -/
def spacesLen (s : List Char) : Nat :=
  (s.takeWhile isPySpace).length

/-- A literal connector followed by `\s*`: total match length. -/
def altLit (w : List Char) (s : List Char) : Option Nat :=
  if w.isPrefixOf s then some (w.length + spacesLen (s.drop w.length)) else none

/-- The action verbs of the lookahead pattern
`و\s*(?=جبت|رحت|ركبت|كلت|اشتريت|دفعت|شريت)`. -/
def split_action_verbs : List (List Char) :=
  ["جبت".toList, "رحت".toList, "ركبت".toList, "كلت".toList,
   "اشتريت".toList, "دفعت".toList, "شريت".toList]

/-- The `و`-before-action-verb pattern: matches `و` plus whitespace when an
action verb follows (the lookahead consumes nothing). -/
def altWaw (s : List Char) : Option Nat :=
  if ("و".toList).isPrefixOf s then
    let r := s.drop 1
    let k := spacesLen r
    if split_action_verbs.any (fun v => v.isPrefixOf (r.drop k)) then some (1 + k)
    else none
  else none

/-- The `بعد\s*كده\s*` pattern. -/
def altBaadKeda (s : List Char) : Option Nat :=
  if ("بعد".toList).isPrefixOf s then
    let r1 := s.drop 3
    let k1 := spacesLen r1
    if ("كده".toList).isPrefixOf (r1.drop k1) then
      some (3 + k1 + 3 + spacesLen (r1.drop (k1 + 3)))
    else none
  else none

/-- The combined alternation, alternatives tried in source order. -/
def matchConnector (s : List Char) : Option Nat :=
  (altLit "وبعدين".toList s).orElse (fun _ =>
  (altWaw s).orElse (fun _ =>
  (altBaadKeda s).orElse (fun _ =>
  (altLit "وكمان".toList s).orElse (fun _ =>
  (altLit "ثم".toList s).orElse (fun _ =>
  altLit "بعدها".toList s)))))

/-- Fuel-indexed `re.split` worker: pieces between matches interleaved with
the matched connector substrings. -/
def splitConnGo : Nat → List Char → List Char → List (List Char)
  | 0, _, acc => [acc.reverse]
  | _, [], acc => [acc.reverse]
  | fuel + 1, c :: rest, acc =>
    match matchConnector (c :: rest) with
    | some len =>
        acc.reverse :: (c :: rest).take len ::
          splitConnGo fuel ((c :: rest).drop len) []
    | none => splitConnGo fuel rest (c :: acc)

/-- `re.split(combined_pattern, text)` with the `None` groups dropped. -/
def splitByConnectors (text : List Char) : List (List Char) :=
  splitConnGo text.length text []

/-- The full-string cleanup regex
`^(وبعدين|و|بعد\s*كده|وكمان|ثم|بعدها)\s*$` applied to a stripped segment
(no trailing whitespace, so the remainder after the alternative must be
empty). -/
def isBaadKedaOnly (s : List Char) : Bool :=
  ("بعد".toList).isPrefixOf s && ((s.drop 3).dropWhile isPySpace == "كده".toList)

def isConnectorOnly (s : List Char) : Bool :=
  s == "وبعدين".toList || s == "و".toList || isBaadKedaOnly s ||
  s == "وكمان".toList || s == "ثم".toList || s == "بعدها".toList

/-- The per-segment cleanup of the primary strategy: skip falsy (`None` /
empty) entries and pure connectors, strip, keep only if longer than 5. -/
def cleanSegment (seg : List Char) : Option (List Char) :=
  if seg.isEmpty || isConnectorOnly (pyStrip seg) then none
  else
    let s := pyStrip seg
    if !s.isEmpty && decide (s.length > 5) then some s else none

/-- Matcher for `\d+\s*جنيه` (payload = total match length, used to compute
`match.end()`). -/
def matchGineh (s : List Char) : Option (Nat × Nat) :=
  let ds := s.takeWhile isPyDigit
  if ds.isEmpty then none
  else
    let r := s.drop ds.length
    let k := spacesLen r
    if ("جنيه".toList).isPrefixOf (r.drop k) then
      some (ds.length + k + 4, ds.length + k + 4)
    else none

/-- `match.end()` positions of every `\d+\s*جنيه` occurrence. -/
def ginehEnds (text : List Char) : List Nat :=
  (scanAux matchGineh text 0).map (fun x => x.2 + x.1)

/-- `text[start:pos].strip()` slices between consecutive boundary positions,
plus the final `text[start:]`. -/
def sliceSegments (text : List Char) : Nat → List Nat → List (List Char)
  | start, [] => [pyStrip (text.drop start)]
  | start, p :: ps => pyStrip ((text.drop start).take (p - start)) :: sliceSegments text p ps

/-- The primary strategy: connector split plus cleanup. -/
def splitPrimary (text : List Char) : List (List Char) :=
  (splitByConnectors text).filterMap cleanSegment

/-- Primary strategy with the amount-boundary fallback: when the primary
strategy yields ≤ 1 piece and there are at least two `\d+\s*جنيه` occurrences,
split after each occurrence except the last. -/
def splitWithFallback (text : List Char) : List (List Char) :=
  if (splitPrimary text).length ≤ 1 then
    let ps := ginehEnds text
    if ps.length > 1 then
      (sliceSegments text 0 ps.dropLast).filter
        (fun s => !s.isEmpty && decide (s.length > 5))
    else splitPrimary text
  else splitPrimary text

/-- `split_text_into_segments`: primary connector split with cleanup, then the
amount-boundary fallback, then — if still ≤ 1 piece — the whole stripped text
as a single segment. -/
def split_text_into_segments (text : List Char) : List (List Char) :=
  if (splitWithFallback text).length ≤ 1 then [pyStrip text]
  else splitWithFallback text

/-- Claim C7: for every input string the segment splitter returns at least one
segment — it never errors (it is a total function) and never returns an empty
list, including when every primary and fallback piece is discarded as too
short (the final fallback returns the whole stripped text). -/
theorem c7_splitter_returns_nonempty (text : List Char) :
    1 ≤ (split_text_into_segments text).length := by
  unfold split_text_into_segments
  split
  · simp
  · next h => omega

/-! ## `CategoryClassifier` (`app/services/nlp_service.py` lines 23-117) -/

/-- One row of the classifier's `category_map`: name, keyword list, place list. -/
structure CategoryDef where
  name : List Char
  keywords : List (List Char)
  places : List (List Char)
  deriving DecidableEq, Repr

/-- The `category_map` of `CategoryClassifier.__init__`, in source (insertion)
order. -/
def category_map : List CategoryDef :=
  [⟨"طعام وشراب".toList,
    ["طعام".toList, "أكل".toList, "اكل".toList, "خضار".toList, "خضروات".toList,
     "فواكه".toList, "فاكهة".toList, "لحم".toList, "لحمة".toList,
     "فراخ".toList, "فرخة".toList, "دجاج".toList, "سمك".toList, "عيش".toList,
     "خبز".toList, "جبنة".toList, "جبن".toList, "لبن".toList, "حليب".toList,
     "بيض".toList, "زيت".toList, "سكر".toList, "رز".toList, "أرز".toList,
     "مكرونة".toList, "معكرونة".toList, "بطاطس".toList,
     "مطعم".toList, "restaurant".toList, "كشري".toList, "فول".toList,
     "طعمية".toList, "قهوة".toList, "كافيه".toList, "كافي".toList,
     "food".toList, "grocery".toList, "vegetables".toList, "fruits".toList,
     "meat".toList, "chicken".toList, "fish".toList],
    ["كارفور".toList, "carrefour".toList, "سبينس".toList, "spinneys".toList,
     "ميترو".toList, "metro".toList]⟩,
   ⟨"مواصلات".toList,
    ["مواصلات".toList, "بنزين".toList, "وقود".toList, "سولار".toList,
     "تاكسي".toList, "أوبر".toList, "اوبر".toList, "كريم".toList, "مترو".toList,
     "اتوبيس".toList, "ميكروباص".toList, "توكتوك".toList, "اجرة".toList,
     "عربية".toList, "سيارة".toList, "قطر".toList, "قطار".toList,
     "تذكرة".toList, "تسكرة".toList, "ركبت".toList, "transport".toList,
     "gas".toList, "fuel".toList, "taxi".toList, "uber".toList,
     "careem".toList, "bus".toList, "metro".toList, "car".toList,
     "train".toList, "ticket".toList],
    []⟩,
   ⟨"تسوق".toList,
    ["محل".toList, "سوبر ماركت".toList, "supermarket".toList, "بقالة".toList,
     "بقال".toList, "جمعية".toList, "حاجات".toList, "تسوق".toList,
     "shopping".toList, "mall".toList, "مول".toList],
    ["كارفور".toList, "carrefour".toList, "سبينس".toList, "spinneys".toList,
     "ميترو".toList, "metro".toList]⟩,
   ⟨"مرتب ودخل".toList,
    ["مرتب".toList, "راتب".toList, "معاش".toList, "salary".toList,
     "wage".toList, "قبضت".toList, "استلمت مرتب".toList, "مكافأة".toList,
     "بونص".toList, "حافز".toList, "عمولة".toList, "ارباح".toList,
     "دخل".toList],
    []⟩,
   ⟨"ملابس".toList,
    ["ملابس".toList, "هدوم".toList, "لبس".toList, "جزمة".toList,
     "شنطة".toList, "حذاء".toList, "بنطلون".toList, "قميص".toList,
     "فستان".toList, "جاكت".toList, "بلوفر".toList, "جينز".toList,
     "عطر".toList, "مكياج".toList, "اكسسوار".toList,
     "clothes".toList, "shopping".toList, "shoes".toList, "bag".toList],
    ["مول".toList, "سيتي ستارز".toList, "مول العرب".toList]⟩,
   ⟨"فواتير".toList,
    ["فاتورة".toList, "كهرباء".toList, "كهربا".toList, "مياه".toList,
     "ميه".toList, "انترنت".toList, "نت".toList, "موبايل".toList,
     "تليفون".toList, "غاز".toList, "تلفون".toList, "خط".toList,
     "باقة".toList, "اشتراك".toList,
     "bill".toList, "electricity".toList, "water".toList, "internet".toList,
     "mobile".toList, "phone".toList, "gas".toList, "subscription".toList],
    []⟩,
   ⟨"ترفيه".toList,
    ["سينما".toList, "فيلم".toList, "ترفيه".toList, "مسرح".toList,
     "حفلة".toList, "حفل".toList, "كونسرت".toList, "نادي".toList,
     "جيم".toList,
     "cinema".toList, "movie".toList, "entertainment".toList, "film".toList,
     "concert".toList, "gym".toList, "club".toList],
    []⟩,
   ⟨"صحة".toList,
    ["دواء".toList, "طبيب".toList, "صيدلية".toList, "دكتور".toList,
     "علاج".toList, "مستشفى".toList, "عيادة".toList, "تحليل".toList,
     "اشعة".toList, "كشف".toList, "عملية".toList, "روشتة".toList,
     "medicine".toList, "doctor".toList, "pharmacy".toList, "health".toList,
     "hospital".toList, "clinic".toList, "medical".toList],
    []⟩]

/-- `CategoryClassifier.classify`: the two special cases, the place lookup
(guarded by the truthiness of `place`), the ordered keyword scan, then the
catch-all; `text_lower = normalize_arabic_text(text.lower())` is written out
at each use. -/
def classify (text : List Char) (place : Option (List Char)) : List Char :=
  if containsSub "تذكرة".toList (normalize_arabic_text (pyLower text))
      || containsSub "تسكرة".toList (normalize_arabic_text (pyLower text)) then
    "مواصلات".toList
  else if containsSub "قهوة".toList (normalize_arabic_text (pyLower text))
      || containsSub "كافيه".toList (normalize_arabic_text (pyLower text)) then
    "طعام وشراب".toList
  else
    match (if truthyStr place then
            (category_map.find?
              (fun cd => cd.places.any
                (fun p => containsSub p (pyLower (place.getD []))))).map
              (fun cd => cd.name)
          else none) with
    | some cat => cat
    | none =>
      match category_map.find?
          (fun cd => cd.keywords.any
            (fun kw => containsSub kw (normalize_arabic_text (pyLower text)))) with
      | some cd => cd.name
      | none => "أخرى".toList

/-! ## `TransactionExtractor` (`app/services/nlp_service.py` lines 120-237) -/

/-- The `places_map` of `TransactionExtractor.__init__`, in source order:
merchant name and its substring aliases. -/
def places_map : List (List Char × List (List Char)) :=
  [("كارفور".toList, ["كارفور".toList, "carrefour".toList]),
   ("سبينس".toList, ["سبينس".toList, "spinneys".toList]),
   ("ميترو".toList, ["metro".toList, "ميترو".toList]),
   ("خير زمان".toList, ["خير زمان".toList]),
   ("العثيم".toList, ["العثيم".toList]),
   ("بنده".toList, ["بنده".toList, "panda".toList]),
   ("هايبر".toList, ["هايبر".toList, "hyper".toList]),
   ("لولو".toList, ["لولو".toList, "lulu".toList]),
   ("فتح الله".toList, ["فتح الله".toList, "fathalla".toList]),
   ("كازيون".toList, ["كازيون".toList, "kazyon".toList]),
   ("سيتي ستارز".toList, ["سيتي ستارز".toList, "city stars".toList]),
   ("مول العرب".toList, ["مول العرب".toList, "mall of arabia".toList])]

/-- `extract_place`: the first merchant one of whose aliases occurs in the
lowercased text. -/
def extract_place (text : List Char) : Option (List Char) :=
  let tl := pyLower text
  (places_map.find? (fun pk => pk.2.any (fun kw => containsSub kw tl))).map
    (fun pk => pk.1)

/-- The two transaction types. -/
inductive TransactionType where
  | income
  | expense
  deriving DecidableEq, Repr

/-- `INCOME_KEYWORDS` (`app/config.py`). -/
def INCOME_KEYWORDS : List (List Char) :=
  ["استلمت".toList, "مرتب".toList, "راتب".toList, "دخل".toList, "حصلت".toList,
   "قبضت".toList, "جالي".toList, "وصلني".toList, "جاني".toList,
   "salary".toList, "income".toList, "received".toList, "earned".toList,
   "got".toList, "استلم".toList, "قبض".toList, "حولت لي".toList,
   "وصل".toList, "حصل".toList, "كسبت".toList, "ربحت".toList]

/-- `determine_transaction_type`: any income keyword in the lowercased text
means income, else expense. -/
def determine_transaction_type (text : List Char) : TransactionType :=
  if INCOME_KEYWORDS.any (fun kw => containsSub kw (pyLower text)) then
    TransactionType.income
  else TransactionType.expense

/-- The stop list of `extract_item`. -/
def item_excluded : List (List Char) :=
  ["في".toList, "من".toList, "على".toList, "ال".toList, "the".toList,
   "a".toList, "an".toList, "كارفور".toList, "ميترو".toList, "حاجة".toList,
   "جوه".toList, "للقطر".toList, "قطر".toList, "قطار".toList]

/-- The alternatives of the three item patterns, in alternation order. -/
def itemAlts1 : List (List Char) := ["على".toList, "علي".toList]

def itemAlts2 : List (List Char) := ["من".toList, "في".toList]

def itemAlts3 : List (List Char) :=
  ["اشتريت".toList, "شريت".toList, "جبت".toList, "اخدت".toList]

/-- Try the pattern `(?:alt|…)\s+(\w+)` at the current position: each
alternative in order, then at least one whitespace, then a captured word. -/
def firstSomeItem : List (List Char) → List Char → Option (List Char)
  | [], _ => none
  | a :: rest, s =>
    if a.isPrefixOf s then
      let r := s.drop a.length
      let k := spacesLen r
      if 1 ≤ k then
        let w := (r.drop k).takeWhile isPyWordChar
        if !w.isEmpty then some w else firstSomeItem rest s
      else firstSomeItem rest s
    else firstSomeItem rest s

/-- `re.search` for one item pattern: leftmost match. -/
def searchItemGo (alts : List (List Char)) : List Char → Option (List Char)
  | [] => none
  | c :: t => (firstSomeItem alts (c :: t)).orElse (fun _ => searchItemGo alts t)

/-- One pattern of the `extract_item` loop: if it matches but the capture is a
stop word, fall through to the next pattern. -/
def itemFromPattern (alts : List (List Char)) (tl : List Char) : Option (List Char) :=
  match searchItemGo alts tl with
  | some w => if item_excluded.contains w then none else some w
  | none => none

/-- `extract_item`: the three special cases, then the three regex patterns in
order (the `category` argument is accepted but unused, as in the source). -/
def extract_item (text : List Char) (category : List Char) : Option (List Char) :=
  let _ := category
  let tl := pyLower text
  if containsSub "قهوة".toList tl then some "قهوة".toList
  else if containsSub "تذكرة".toList tl || containsSub "تسكرة".toList tl then
    some "تذكرة".toList
  else if containsSub "حاجات".toList tl then some "حاجات متنوعة".toList
  else
    (itemFromPattern itemAlts1 tl).orElse (fun _ =>
    (itemFromPattern itemAlts2 tl).orElse (fun _ =>
    itemFromPattern itemAlts3 tl))

/-- The domain `Transaction` record (`app/models/domain.py`), restricted to
the fields the analysis computes: the `id` (a fresh UUID), `currency`
(constant EGP) and `created_at` timestamp carry no information about the
claims and are omitted. -/
structure Transaction where
  amount : Option ℚ
  transaction_type : TransactionType
  category : List Char
  item : Option (List Char)
  merchant : Option (List Char)
  confidence_score : ℚ
  extracted_from : List Char
  deriving DecidableEq, Repr

/-- `extract_transaction`: fill a missing amount from the segment's own
extraction, then merchant, type, category, item and the confidence score. -/
def extract_transaction (text : List Char) (amount0 : Option ℚ) : Transaction :=
  let amount := match amount0 with
    | none => (extract_amounts_from_text text).head?.map Prod.fst
    | some a => some a
  let place := extract_place text
  let category := classify text place
  let item := extract_item text category
  { amount := amount,
    transaction_type := determine_transaction_type text,
    category := category,
    item := item,
    merchant := place,
    confidence_score := calculate_confidence text amount place item,
    extracted_from := text }

/-! ## Claim C8: classifier resolution order

Spec-side formulation of §4.4: first-match-wins staging of (1) the two
hard-coded special cases, (2) the merchant lookup, (3) the ordered keyword
scan, (4) the catch-all. -/

/-- Stage 1 of the spec: ticket-like terms → transport, coffee-shop terms →
food, checked before anything else. -/
def specialCaseSpec (text_lower : List Char) : Option (List Char) :=
  if containsSub "تذكرة".toList text_lower || containsSub "تسكرة".toList text_lower then
    some "مواصلات".toList
  else if containsSub "قهوة".toList text_lower || containsSub "كافيه".toList text_lower then
    some "طعام وشراب".toList
  else none

/-- Stage 2 of the spec: look the merchant up in the merchant→category table
(the `places` lists of the static category table). -/
def merchantLookupSpec (place_lower : List Char) : Option (List Char) :=
  (category_map.find?
    (fun cd => cd.places.any (fun p => containsSub p place_lower))).map
    (fun cd => cd.name)

/-- Stage 3 of the spec: scan the fixed ordered category table and return the
first category with a keyword present in the normalized lowercased segment. -/
def keywordScanSpec (text_lower : List Char) : Option (List Char) :=
  (category_map.find?
    (fun cd => cd.keywords.any (fun kw => containsSub kw text_lower))).map
    (fun cd => cd.name)

/-- First-match-wins over a list of staged optional results, defaulting to
the catch-all "أخرى". -/
def firstSomeCat : List (Option (List Char)) → List Char
  | [] => "أخرى".toList
  | some c :: _ => c
  | none :: rest => firstSomeCat rest

/-- The spec's resolution: stages 1-3 first-match-wins, default "other". -/
def classifySpec (text : List Char) (place : Option (List Char)) : List Char :=
  firstSomeCat
    [specialCaseSpec (normalize_arabic_text (pyLower text)),
     if truthyStr place then merchantLookupSpec (pyLower (place.getD [])) else none,
     keywordScanSpec (normalize_arabic_text (pyLower text))]

/-- The fixed category vocabulary plus the catch-all. -/
def allCategoryNames : List (List Char) :=
  ["طعام وشراب".toList, "مواصلات".toList, "تسوق".toList, "مرتب ودخل".toList,
   "ملابس".toList, "فواتير".toList, "ترفيه".toList, "صحة".toList, "أخرى".toList]

theorem category_names_mem : ∀ cd ∈ category_map, cd.name ∈ allCategoryNames := by
  decide

/-- Claim C8: the category classifier resolves in first-match-wins order —
the two hard-coded special cases (ticket-like → transport, coffee-shop →
food) before anything else, then the merchant lookup, then the ordered
keyword scan over the fixed category table, then the catch-all "أخرى" — and
it is total: its result is always one of the fixed category names. -/
theorem c8_classifier_resolution (text : List Char) (place : Option (List Char)) :
    classify text place = classifySpec text place
    ∧ classify text place ∈ allCategoryNames := by
  unfold classify classifySpec specialCaseSpec merchantLookupSpec keywordScanSpec
  by_cases h1 : (containsSub "تذكرة".toList (normalize_arabic_text (pyLower text))
      || containsSub "تسكرة".toList (normalize_arabic_text (pyLower text))) = true
  · rw [if_pos h1, if_pos h1]
    exact ⟨rfl, by decide⟩
  · rw [if_neg h1, if_neg h1]
    by_cases h2 : (containsSub "قهوة".toList (normalize_arabic_text (pyLower text))
        || containsSub "كافيه".toList (normalize_arabic_text (pyLower text))) = true
    · rw [if_pos h2, if_pos h2]
      exact ⟨rfl, by decide⟩
    · rw [if_neg h2, if_neg h2]
      by_cases h3 : truthyStr place = true
      · rw [if_pos h3]
        cases hf : category_map.find?
            (fun cd => cd.places.any (fun p => containsSub p (pyLower (place.getD [])))) with
        | some cd =>
          exact ⟨rfl, category_names_mem cd (List.mem_of_find?_eq_some hf)⟩
        | none =>
          cases hk : category_map.find?
              (fun cd => cd.keywords.any
                (fun kw => containsSub kw (normalize_arabic_text (pyLower text)))) with
          | some cd =>
            exact ⟨rfl, category_names_mem cd (List.mem_of_find?_eq_some hk)⟩
          | none =>
            exact ⟨rfl, by decide⟩
      · rw [if_neg h3]
        cases hk : category_map.find?
            (fun cd => cd.keywords.any
              (fun kw => containsSub kw (normalize_arabic_text (pyLower text)))) with
        | some cd =>
          exact ⟨rfl, category_names_mem cd (List.mem_of_find?_eq_some hk)⟩
        | none =>
          exact ⟨rfl, by decide⟩

/-! ## `NLPService._calculate_summary` (`app/services/nlp_service.py`
lines 392-416) -/

/-- Python truthiness of an optional float: `None` and `0.0` are falsy. -/
def truthyQ (o : Option ℚ) : Bool :=
  match o with
  | none => false
  | some q => decide (q ≠ 0)

/-- `categories[cat] = categories.get(cat, 0) + amount` on an
insertion-ordered dict. -/
def updAssoc : List (List Char × ℚ) → List Char → ℚ → List (List Char × ℚ)
  | [], c, a => [(c, a)]
  | (c0, v) :: rest, c, a =>
    if c0 = c then (c0, v + a) :: rest else (c0, v) :: updAssoc rest c a

/-- The derived `FinancialSummary` (`app/models/responses.py`), with the
category mapping as an insertion-ordered association list. -/
structure FinancialSummary where
  total_transactions : Nat
  total_income : ℚ
  total_expenses : ℚ
  net_amount : ℚ
  categories : List (List Char × ℚ)
  deriving DecidableEq, Repr

/-- `_calculate_summary`: income and expense totals over transactions whose
type matches and whose amount is truthy, the net, and the category mapping
over transactions with truthy amount and truthy category. -/
def calculate_summary (ts : List Transaction) : FinancialSummary :=
  let total_income :=
    ((ts.filter (fun t => decide (t.transaction_type = TransactionType.income)
        && truthyQ t.amount)).map (fun t => t.amount.getD 0)).sum
  let total_expenses :=
    ((ts.filter (fun t => decide (t.transaction_type = TransactionType.expense)
        && truthyQ t.amount)).map (fun t => t.amount.getD 0)).sum
  { total_transactions := ts.length,
    total_income := total_income,
    total_expenses := total_expenses,
    net_amount := total_income - total_expenses,
    categories := ts.foldl
      (fun m t =>
        if truthyQ t.amount && !(t.category.isEmpty) then
          updAssoc m t.category (t.amount.getD 0)
        else m) [] }

/-- Value of a category in the mapping, absent keys reading as 0. -/
def lookupCat (m : List (List Char × ℚ)) (c : List Char) : ℚ :=
  match m.find? (fun kv => kv.1 == c) with
  | some kv => kv.2
  | none => 0

/-- Spec-side sum: total of the amounts of the transactions of one type,
missing amounts contributing 0. -/
def specTypeSum (tt : TransactionType) (ts : List Transaction) : ℚ :=
  (ts.map (fun t => if t.transaction_type = tt then t.amount.getD 0 else 0)).sum

/-- Spec-side category sum: total over transactions that have an amount
(`amount` present) and the given category. -/
def specCatSum (ts : List Transaction) (c : List Char) : ℚ :=
  (ts.map (fun t => if t.amount.isSome ∧ t.category = c then t.amount.getD 0 else 0)).sum

theorem typeSum_eq (tt : TransactionType) :
    ∀ ts : List Transaction, (∀ t ∈ ts, ∀ q, t.amount = some q → 0 < q) →
    ((ts.filter (fun t => decide (t.transaction_type = tt)
        && truthyQ t.amount)).map (fun t => t.amount.getD 0)).sum = specTypeSum tt ts := by
  intro ts
  induction ts with
  | nil => intro _; simp [specTypeSum]
  | cons t rest ih =>
    intro h
    have hrest := ih (fun u hu => h u (List.mem_cons_of_mem _ hu))
    have ht := h t (List.mem_cons_self _ _)
    simp only [specTypeSum, List.map_cons, List.sum_cons, List.filter_cons]
    by_cases htt : t.transaction_type = tt
    · cases ha : t.amount with
      | none =>
        have hcond : (decide (t.transaction_type = tt) && truthyQ none) = false := by
          simp [truthyQ]
        rw [hcond]
        simp only [Bool.false_eq_true, if_false]
        rw [hrest]
        simp [specTypeSum, htt, ha]
      | some q =>
        have hq0 : q ≠ 0 := ne_of_gt (ht q ha)
        have hcond : (decide (t.transaction_type = tt) && truthyQ (some q)) = true := by
          simp [truthyQ, htt, hq0]
        rw [hcond]
        simp only [if_true, List.map_cons, List.sum_cons]
        rw [hrest]
        simp [specTypeSum, htt, ha]
    · have hcond : (decide (t.transaction_type = tt) && truthyQ t.amount) = false := by
        simp [htt]
      rw [hcond]
      simp only [Bool.false_eq_true, if_false]
      rw [hrest]
      simp [specTypeSum, htt]

theorem lookupCat_cons_eq (c0 : List Char) (v : ℚ) (m : List (List Char × ℚ)) :
    lookupCat ((c0, v) :: m) c0 = v := by
  simp [lookupCat, List.find?_cons]

theorem lookupCat_cons_ne (ck c0 : List Char) (h : ck ≠ c0) (v : ℚ)
    (m : List (List Char × ℚ)) :
    lookupCat ((ck, v) :: m) c0 = lookupCat m c0 := by
  simp [lookupCat, List.find?_cons, h]

theorem lookupCat_updAssoc (m : List (List Char × ℚ)) (c : List Char) (a : ℚ)
    (c0 : List Char) :
    lookupCat (updAssoc m c a) c0
      = if c0 = c then lookupCat m c0 + a else lookupCat m c0 := by
  induction m with
  | nil =>
    by_cases h : c0 = c
    · subst h
      simp [updAssoc, lookupCat, List.find?_cons]
    · have h2 : c ≠ c0 := fun hc => h hc.symm
      rw [if_neg h]
      show lookupCat [(c, a)] c0 = lookupCat [] c0
      rw [lookupCat_cons_ne c c0 h2]
  | cons kv rest ih =>
    obtain ⟨ck, v⟩ := kv
    by_cases hk : ck = c
    · subst hk
      by_cases h0 : c0 = ck
      · subst h0
        simp [updAssoc, lookupCat_cons_eq]
      · have hne : ck ≠ c0 := fun hc => h0 hc.symm
        simp [updAssoc, lookupCat_cons_ne ck c0 hne, h0]
    · by_cases h0 : c0 = ck
      · have hcc : ¬ c0 = c := by
          rw [h0]
          exact hk
        rw [if_neg hcc, h0]
        simp [updAssoc, hk, lookupCat_cons_eq]
      · have hne : ck ≠ c0 := fun hc => h0 hc.symm
        simp only [updAssoc, if_neg hk]
        rw [lookupCat_cons_ne ck c0 hne v (updAssoc rest c a),
          lookupCat_cons_ne ck c0 hne v rest]
        exact ih

theorem foldl_categories_lookup (c : List Char) :
    ∀ (ts : List Transaction) (m : List (List Char × ℚ)),
      (∀ t ∈ ts, (∀ q, t.amount = some q → 0 < q) ∧ t.category ≠ []) →
      lookupCat (ts.foldl
        (fun m t =>
          if truthyQ t.amount && !(t.category.isEmpty) then
            updAssoc m t.category (t.amount.getD 0)
          else m) m) c
      = lookupCat m c + specCatSum ts c := by
  intro ts
  induction ts with
  | nil => intro m _; simp [specCatSum]
  | cons t rest ih =>
    intro m h
    have hrest := fun u hu => h u (List.mem_cons_of_mem _ hu)
    have ht := h t (List.mem_cons_self _ _)
    simp only [List.foldl_cons, specCatSum, List.map_cons, List.sum_cons]
    cases ha : t.amount with
    | none =>
      have hcond : (truthyQ none && !(t.category.isEmpty)) = false := by
        simp [truthyQ]
      simp only [hcond, Bool.false_eq_true, if_false]
      rw [ih m hrest]
      simp [ha, specCatSum]
    | some q =>
      have hq0 : q ≠ 0 := ne_of_gt (ht.1 q ha)
      have hne : ¬ t.category.isEmpty := by
        simp [List.isEmpty_iff]
        exact ht.2
      have hcond : (truthyQ (some q) && !(t.category.isEmpty)) = true := by
        simp [truthyQ, hq0, hne]
      simp only [hcond, if_true]
      rw [ih _ hrest, lookupCat_updAssoc]
      by_cases hc : c = t.category
      · simp [hc, ha, specCatSum]
        ring
      · have hc2 : ¬ t.category = c := fun hx => hc hx.symm
        simp [hc, ha, hc2, specCatSum]

/-- Counterexample to claim C9 as stated: a transaction with an amount (0.0,
present, not missing) and a non-empty category is nevertheless excluded from
the categories mapping, because the code tests Python truthiness (`t.amount`)
rather than presence — the mapping has no entry at all for its category. -/
theorem c9_counterexample :
    (Transaction.mk (some 0) TransactionType.expense "أخرى".toList none none 0 []).amount ≠ none
    ∧ (Transaction.mk (some 0) TransactionType.expense "أخرى".toList none none 0 []).category ≠ []
    ∧ (calculate_summary
        [Transaction.mk (some 0) TransactionType.expense "أخرى".toList none none 0 []]).categories
        = [] := by
  refine ⟨by decide, by decide, by decide⟩

/-- Claim C9, amended: for every list of transactions whose amounts, when
present, are nonzero (the extractor only produces positive amounts) and whose
categories are non-empty (the classifier is total), the summary satisfies:
`total_transactions` is the length of the list; `total_income` /
`total_expenses` are the sums of the amounts of the income / expense
transactions with missing amounts contributing 0 (those transactions still
counted); `net_amount = total_income - total_expenses`; and the categories
mapping sums amounts exactly over the transactions that have both an amount
and a category (reading absent keys as 0).  Without the nonzero-amount
hypothesis a present amount of 0.0 is dropped from the mapping, which is the
counterexample to the claim as stated. -/
theorem c9_summary_amended (ts : List Transaction)
    (h : ∀ t ∈ ts, (∀ q, t.amount = some q → 0 < q) ∧ t.category ≠ []) :
    (calculate_summary ts).total_transactions = ts.length
    ∧ (calculate_summary ts).total_income = specTypeSum TransactionType.income ts
    ∧ (calculate_summary ts).total_expenses = specTypeSum TransactionType.expense ts
    ∧ (calculate_summary ts).net_amount
        = specTypeSum TransactionType.income ts - specTypeSum TransactionType.expense ts
    ∧ ∀ c, lookupCat (calculate_summary ts).categories c = specCatSum ts c := by
  have hamount : ∀ t ∈ ts, ∀ q, t.amount = some q → 0 < q := fun t ht => (h t ht).1
  refine ⟨rfl, typeSum_eq _ ts hamount, typeSum_eq _ ts hamount, ?_, ?_⟩
  · show (((ts.filter _).map _).sum - ((ts.filter _).map _).sum : ℚ) = _
    rw [typeSum_eq _ ts hamount, typeSum_eq _ ts hamount]
  · intro c
    show lookupCat (ts.foldl _ []) c = _
    rw [foldl_categories_lookup c ts [] h]
    simp [lookupCat]

/-- Witness for the amended C9 theorem at a concrete two-transaction list. -/
theorem c9_summary_amended_witness :
    (∀ t ∈ [Transaction.mk (some 5) TransactionType.income "مرتب ودخل".toList none none 0 [],
            Transaction.mk none TransactionType.expense "أخرى".toList none none 0 []],
        (∀ q, t.amount = some q → 0 < q) ∧ t.category ≠ [])
    ∧ (calculate_summary
        [Transaction.mk (some 5) TransactionType.income "مرتب ودخل".toList none none 0 [],
         Transaction.mk none TransactionType.expense "أخرى".toList none none 0 []]).total_transactions = 2 := by
  have hh : ∀ t ∈ [Transaction.mk (some 5) TransactionType.income "مرتب ودخل".toList none none 0 [],
      Transaction.mk none TransactionType.expense "أخرى".toList none none 0 []],
      (∀ q, t.amount = some q → 0 < q) ∧ t.category ≠ [] := by
    decide
  exact ⟨hh, (c9_summary_amended _ hh).1⟩

/-! ## `ContentFilter` (`app/utils/content_filter.py`)

`check_content` matches each prohibited term as a whole word
(`\b term \b`, IGNORECASE).  All terms begin and end with word characters,
so the boundaries amount to: the character before (if any) and after (if
any) the case-insensitive occurrence are not word characters. -/

/-- Case-insensitive prefix test (the IGNORECASE flag of the compiled
patterns). -/
def lcIsPrefixOf : List Char → List Char → Bool
  | [], _ => true
  | _ :: _, [] => false
  | a :: t1, b :: t2 => (a.toLower == b.toLower) && lcIsPrefixOf t1 t2

/-- Scan for a whole-word, case-insensitive occurrence of `term`; `prevW`
records whether the previous character was a word character. -/
def boundScanGo (term : List Char) : List Char → Bool → Bool
  | [], _ => false
  | c :: rest, prevW =>
    (!prevW && lcIsPrefixOf term (c :: rest) &&
      (match (c :: rest).drop term.length with
       | [] => true
       | d :: _ => !isPyWordChar d))
    || boundScanGo term rest (isPyWordChar c)

/-- One compiled pattern `\b re.escape(term) \b` matches somewhere in `text`. -/
def hasProhibitedTerm (term text : List Char) : Bool :=
  boundScanGo term text false

/-- `illegal_substances`. -/
def illegal_substances : List (List Char) :=
  ["حشيش".toList, "حشيشة".toList, "بانجو".toList, "ماريجوانا".toList,
   "كوكايين".toList, "هيروين".toList, "أفيون".toList, "ترامادول".toList,
   "كبتاجون".toList, "إكستاسي".toList, "مخدرات".toList, "مخدر".toList,
   "مواد مخدرة".toList, "تجارة المخدرات".toList,
   "بيع المخدرات".toList, "شراء المخدرات".toList, "تهريب المخدرات".toList,
   "مروج مخدرات".toList,
   "drugs".toList, "cocaine".toList, "heroin".toList, "marijuana".toList,
   "cannabis".toList, "hashish".toList, "opium".toList,
   "ecstasy".toList, "methamphetamine".toList, "drug dealing".toList,
   "drug trafficking".toList, "drug trade".toList,
   "illegal drugs".toList, "narcotics".toList, "drug dealer".toList,
   "drug pusher".toList]

/-- `illegal_activities`. -/
def illegal_activities : List (List Char) :=
  ["غسيل أموال".toList, "غسيل الأموال".toList, "تبييض أموال".toList,
   "أموال مشبوهة".toList, "رشوة".toList, "فساد".toList,
   "تهرب ضريبي".toList, "تجارة أسلحة".toList, "تهريب".toList,
   "احتيال".toList, "نصب".toList, "سرقة".toList, "اختلاس".toList,
   "تزوير".toList, "تزييف".toList, "قتل".toList, "اغتيال".toList,
   "خطف".toList, "اتجار بالبشر".toList, "دعارة".toList, "بغاء".toList,
   "money laundering".toList, "tax evasion".toList, "bribery".toList,
   "corruption".toList, "fraud".toList, "theft".toList,
   "embezzlement".toList, "forgery".toList, "counterfeiting".toList,
   "murder".toList, "assassination".toList,
   "kidnapping".toList, "human trafficking".toList, "prostitution".toList,
   "arms dealing".toList, "smuggling".toList]

/-- `weapons_explosives`. -/
def weapons_explosives : List (List Char) :=
  ["أسلحة".toList, "سلاح".toList, "مسدس".toList, "بندقية".toList,
   "رشاش".toList, "قنابل".toList, "قنبلة".toList, "متفجرات".toList,
   "ديناميت".toList, "تي إن تي".toList, "C4".toList,
   "أسلحة نارية".toList, "ذخيرة".toList, "رصاص".toList,
   "weapons".toList, "gun".toList, "pistol".toList, "rifle".toList,
   "machine gun".toList, "bomb".toList, "explosive".toList,
   "dynamite".toList, "TNT".toList, "ammunition".toList,
   "bullets".toList, "firearms".toList, "grenades".toList]

/-- `prohibited_terms = illegal_substances + illegal_activities +
weapons_explosives`. -/
def prohibited_terms : List (List Char) :=
  illegal_substances ++ illegal_activities ++ weapons_explosives

/-- `check_content` as a Boolean: empty text is safe; otherwise safe iff no
prohibited pattern matches (`filter_text` raises exactly when this is
false). -/
def check_content_safe (text : List Char) : Bool :=
  if text.isEmpty then true
  else !(prohibited_terms.any (fun term => hasProhibitedTerm term text))

/-! ## The per-segment analysis loop
(`NLPService.analyze_text`, `app/services/nlp_service.py` lines 284-320) -/

/-- The action verbs of `_is_transaction_segment`. -/
def segment_action_verbs : List (List Char) :=
  ["دفعت".toList, "اشتريت".toList, "جبت".toList, "استلمت".toList,
   "قبضت".toList, "صرفت".toList, "كلت".toList, "شربت".toList]

/-- `_is_transaction_segment`: an action verb or an extractable amount. -/
def is_transaction_segment (segment : List Char) : Bool :=
  segment_action_verbs.any (fun v => containsSub v (pyLower segment))
  || !(extract_amounts_from_text segment).isEmpty

/-- The spending verbs of `_indicates_spending`. -/
def spending_verbs : List (List Char) :=
  ["دفعت".toList, "اشتريت".toList, "جبت".toList, "صرفت".toList,
   "كلت".toList, "شربت".toList, "خلصت".toList]

/-- `_indicates_spending`. -/
def indicates_spending (segment : List Char) : Bool :=
  spending_verbs.any (fun v => containsSub v (pyLower segment))

/-- `_is_meaningful_transaction`: an amount, or a truthy merchant or item. -/
def is_meaningful_transaction (t : Transaction) : Bool :=
  t.amount.isSome || truthyStr t.merchant || truthyStr t.item

/-- The per-segment loop of `analyze_text`: skip segments the content filter
rejects and segments that are not transaction-like; take the segment's first
own amount (recording its VALUE in the used set) or, for a spending segment
with no local amount, claim the first whole-text amount whose value is
unused; build the transaction and keep it only if meaningful. -/
def analyzeLoop (allAmounts : List (ℚ × Nat)) :
    List (List Char) → List ℚ → List Transaction
  | [], _ => []
  | seg :: rest, used =>
    if check_content_safe seg = false then analyzeLoop allAmounts rest used
    else if is_transaction_segment seg = false then analyzeLoop allAmounts rest used
    else
      match extract_amounts_from_text seg with
      | (a, _) :: _ =>
        let t := extract_transaction seg (some a)
        let used2 := if a ∈ used then used else a :: used
        if is_meaningful_transaction t then t :: analyzeLoop allAmounts rest used2
        else analyzeLoop allAmounts rest used2
      | [] =>
        if indicates_spending seg then
          match allAmounts.find? (fun ap => decide (ap.1 ∉ used)) with
          | some (a, _) =>
            let t := extract_transaction seg (some a)
            if is_meaningful_transaction t then
              t :: analyzeLoop allAmounts rest (a :: used)
            else analyzeLoop allAmounts rest (a :: used)
          | none =>
            let t := extract_transaction seg none
            if is_meaningful_transaction t then t :: analyzeLoop allAmounts rest used
            else analyzeLoop allAmounts rest used
        else
          let t := extract_transaction seg none
          if is_meaningful_transaction t then t :: analyzeLoop allAmounts rest used
          else analyzeLoop allAmounts rest used

/-- The transaction list produced by `analyze_text`'s loop: whole-text amount
inventory, segment split, empty used-amounts set. -/
def analyzeTransactions (text : List Char) : List Transaction :=
  analyzeLoop (extract_amounts_from_text text) (split_text_into_segments text) []

/-- A segment the loop fully processes using its own first amount: it passes
the content filter, is transaction-like, and has a non-empty local amount
inventory. -/
def processedWithLocalAmount (seg : List Char) : Bool :=
  check_content_safe seg && is_transaction_segment seg
    && !(extract_amounts_from_text seg).isEmpty

theorem extract_transaction_amount (seg : List Char) (a : ℚ) :
    (extract_transaction seg (some a)).amount = some a := rfl

theorem analyzeLoop_keeps_local_amounts (allAmounts : List (ℚ × Nat)) :
    ∀ (segs : List (List Char)) (used : List ℚ),
      ((segs.filter processedWithLocalAmount).map
          (fun s => (extract_amounts_from_text s).head?.map Prod.fst)).Sublist
        ((analyzeLoop allAmounts segs used).map (fun t => t.amount)) := by
  intro segs
  induction segs with
  | nil => intro used; simp [analyzeLoop]
  | cons seg rest ih =>
    intro used
    by_cases h1 : check_content_safe seg = false
    · have hp : processedWithLocalAmount seg = false := by
        simp [processedWithLocalAmount, h1]
      simp only [analyzeLoop, h1, if_pos, List.filter_cons, hp, Bool.false_eq_true,
        if_false, if_true]
      exact ih used
    · by_cases h2 : is_transaction_segment seg = false
      · have hp : processedWithLocalAmount seg = false := by
          simp [processedWithLocalAmount, h2]
        simp only [analyzeLoop, h1, h2, Bool.false_eq_true, if_false, if_true,
          List.filter_cons, hp]
        exact ih used
      · simp only [analyzeLoop, h1, h2, Bool.false_eq_true, if_false]
        cases hseg : extract_amounts_from_text seg with
        | nil =>
          have hp : processedWithLocalAmount seg = false := by
            simp [processedWithLocalAmount, hseg]
          simp only [List.filter_cons, hp, Bool.false_eq_true, if_false]
          by_cases hsp : indicates_spending seg = true
          · simp only [hsp, if_true]
            cases hfind : allAmounts.find? (fun ap => decide (ap.1 ∉ used)) with
            | some ap =>
              obtain ⟨a, p⟩ := ap
              by_cases hm : is_meaningful_transaction (extract_transaction seg (some a)) = true
              · simp only [hm, if_true, List.map_cons]
                exact List.Sublist.cons _ (ih _)
              · simp only [hm, Bool.false_eq_true, if_false]
                exact ih _
            | none =>
              by_cases hm : is_meaningful_transaction (extract_transaction seg none) = true
              · simp only [hm, if_true, List.map_cons]
                exact List.Sublist.cons _ (ih _)
              · simp only [hm, Bool.false_eq_true, if_false]
                exact ih _
          · simp only [hsp, Bool.false_eq_true, if_false]
            by_cases hm : is_meaningful_transaction (extract_transaction seg none) = true
            · simp only [hm, if_true, List.map_cons]
              exact List.Sublist.cons _ (ih _)
            · simp only [hm, Bool.false_eq_true, if_false]
              exact ih _
        | cons ap tail =>
          obtain ⟨a, p⟩ := ap
          have hp : processedWithLocalAmount seg = true := by
            simp only [processedWithLocalAmount, hseg]
            simp only [Bool.not_eq_true'] at h1 h2
            simp [h1, h2]
          have hm : is_meaningful_transaction (extract_transaction seg (some a)) = true := by
            simp [is_meaningful_transaction, extract_transaction_amount]
          simp only [List.filter_cons, hp, if_true, List.map_cons, hseg,
            List.head?_cons, Option.map_some, hm]
          exact List.Sublist.cons₂ _ (ih _)

/-- Claim C1, amended: in the per-segment loop, every filter-passing,
transaction-like segment with its own (local) amount inventory yields exactly
one Transaction carrying that segment's first local amount, in order — as a
sublist of the produced amounts.  Hence two equal-valued digit mentions in two
different segments (more than one dedup bucket apart) each produce a distinct
Transaction carrying that value whenever each mention is the first amount of
its own segment, and neither is dropped.  However — this is the part of the
original claim that fails — the used-amounts set dedups by VALUE, not by
position, so the same value (hence an Amount position) can additionally be
claimed by a spending segment that has no local amount: an Amount position is
NOT always used by at most one Transaction (see the counterexample). -/
theorem c1_amended_local_mentions_kept (text : List Char) :
    (((split_text_into_segments text).filter processedWithLocalAmount).map
        (fun s => (extract_amounts_from_text s).head?.map Prod.fst)).Sublist
      ((analyzeTransactions text).map (fun t => t.amount))
    ∧ ∀ v : ℚ,
      ((((split_text_into_segments text).filter processedWithLocalAmount).map
          (fun s => (extract_amounts_from_text s).head?.map Prod.fst)).count (some v))
        ≤ (((analyzeTransactions text).map (fun t => t.amount)).count (some v)) :=
  ⟨analyzeLoop_keeps_local_amounts _ _ [],
   fun _ => (analyzeLoop_keeps_local_amounts _ _ []).count_le _⟩

/-- The input text of the C1 counterexample: a spending segment with no
amount, followed by two segments each containing the digit mention "50". -/
def c1Text : List Char :=
  "اشتريت حاجات وبعدين دفعت 50 جنيه وبعدين دفعت 50 جنيه للتاكسي".toList

set_option maxRecDepth 10000 in
unseal Rat.mul Rat.add in
/-- Counterexample to claim C1 as stated: the text contains exactly two
digit-amount mentions of the value 50, in two different segments, more than
one 5-character dedup bucket apart (buckets 5 and 9) — yet the loop produces
THREE Transactions carrying 50: the first (amount-less spending) segment
claims the value 50 from the whole-text inventory even though both mentions
of 50 are also consumed locally by their own segments.  The total booked
(150) exceeds the money mentioned (100): an Amount position is used by more
than one Transaction, because the used-amounts set dedups by value.
(The two `Rat` operations are unsealed so that `decide` can evaluate the
extracted rational amounts in the kernel.) -/
theorem c1_counterexample :
    extract_amounts_from_text c1Text = [(50, 25), (50, 45)]
    ∧ 25 / 5 + 1 < 45 / 5
    ∧ split_text_into_segments c1Text
        = ["اشتريت حاجات".toList, "دفعت 50 جنيه".toList, "دفعت 50 جنيه للتاكسي".toList]
    ∧ (extract_amounts_from_text "دفعت 50 جنيه".toList).map Prod.fst = [50]
    ∧ (extract_amounts_from_text "دفعت 50 جنيه للتاكسي".toList).map Prod.fst = [50]
    ∧ (analyzeTransactions c1Text).map (fun t => t.amount)
        = [some 50, some 50, some 50] := by
  refine ⟨by decide, by decide, by decide, by decide, by decide, by decide⟩

end Finance
